import Mathlib

/-!
# MAN: lifecycle-tracked runnables, work queues and the thread pool

A shallow embedding of the headers under `src/man/` and properties of it.

Conventions of the embedding.
* Template parameters become type parameters: `T` is the stored callable,
  `Args` the launch arguments, `R` the `ReturnType` of `Model<T, Args...>`.
* `std::type_index` values are natural numbers compared for equality.
* `assert` failures are fatal and appear as an explicit outcome.
* Time points and durations are integer counts of nanoseconds; the readings
  of `Clock::now()` are parameters of the operations that take them.
* A progress value (`Progression`) holds exact rationals; where the values of
  `float` that are not numbers matter, `FloatProgression` holds every value of
  `float` and an operator stores whatever value it computed.
* A call through a pointer that designates no stored element is undefined
  behaviour and is recorded as such.
* A `std::vector` used as stable storage is a buffer identity, a capacity and
  the stored elements; an element address is a buffer identity and an index.
* Atomic flags are plain booleans of one state snapshot; a mutex is given by
  whether it can be acquired at the moment of the call.
-/

namespace man

/-! ## RangeType.h -/

/-- The class `ProgressionTemplated<T, ErrorPolitic>` over exact values. -/
structure ProgressionTemplated where
  m_min : ℚ
  m_current : ℚ
  m_max : ℚ
  deriving DecidableEq

/-- The private `validate()`: `true` when `ErrorPolitic{}()` is invoked. -/
def ProgressionTemplated.validate (p : ProgressionTemplated) : Bool :=
  decide (p.m_min > p.m_current) || decide (p.m_current > p.m_max)

/-- A validated write: the object as stored, and whether the policy fired. -/
structure Validated where
  object : ProgressionTemplated
  fired : Bool
  deriving DecidableEq

/-- The statement `validate();` that ends the constructor and each operator. -/
def ProgressionTemplated.checked (p : ProgressionTemplated) : Validated :=
  { object := p, fired := p.validate }

/-- The constructor `ProgressionTemplated(T value)`. -/
def ProgressionTemplated.construct (value : ℚ) : Validated :=
  ProgressionTemplated.checked { m_min := 0, m_current := value, m_max := 1 }

/-- The member `operator =(T value)`. -/
def ProgressionTemplated.assign (p : ProgressionTemplated) (value : ℚ) : Validated :=
  ProgressionTemplated.checked { p with m_current := value }

/-- The member `operator +=` (first instance of the `OP` family). -/
def ProgressionTemplated.addAssign (p : ProgressionTemplated) (value : ℚ) : Validated :=
  ProgressionTemplated.checked { p with m_current := p.m_current + value }

/-- The member `operator -=`. -/
def ProgressionTemplated.subAssign (p : ProgressionTemplated) (value : ℚ) : Validated :=
  ProgressionTemplated.checked { p with m_current := p.m_current - value }

/-- The member `operator /=`. -/
def ProgressionTemplated.divAssign (p : ProgressionTemplated) (value : ℚ) : Validated :=
  ProgressionTemplated.checked { p with m_current := p.m_current / value }

/-- The member `operator *=`. -/
def ProgressionTemplated.mulAssign (p : ProgressionTemplated) (value : ℚ) : Validated :=
  ProgressionTemplated.checked { p with m_current := p.m_current * value }

/-- The conversion `operator const T()`. -/
def ProgressionTemplated.toValue (p : ProgressionTemplated) : ℚ :=
  p.m_current

/-- The alias `Progression`, the values of its slot read as exact numbers;
`FloatProgression` below is the same class with every value of `float`. -/
abbrev Progression := ProgressionTemplated

/-- The objects obtained over exact values through the constructor and the
operators without the policy firing. A quotient by zero is taken as 0, the
convention of the rationals; no such object arises in the code, so they only
enlarge the set. -/
inductive Progression.Built : Progression → Prop
  | construct (value : ℚ) (h : (ProgressionTemplated.construct value).fired = false) :
      Progression.Built (ProgressionTemplated.construct value).object
  | assign (p : Progression) (value : ℚ) (hp : Progression.Built p)
      (h : (p.assign value).fired = false) : Progression.Built (p.assign value).object
  | addAssign (p : Progression) (value : ℚ) (hp : Progression.Built p)
      (h : (p.addAssign value).fired = false) : Progression.Built (p.addAssign value).object
  | subAssign (p : Progression) (value : ℚ) (hp : Progression.Built p)
      (h : (p.subAssign value).fired = false) : Progression.Built (p.subAssign value).object
  | divAssign (p : Progression) (value : ℚ) (hp : Progression.Built p)
      (h : (p.divAssign value).fired = false) : Progression.Built (p.divAssign value).object
  | mulAssign (p : Progression) (value : ℚ) (hp : Progression.Built p)
      (h : (p.mulAssign value).fired = false) : Progression.Built (p.mulAssign value).object

/-- The implicit conversion of a literal such as `0.0f` to `Progression`. -/
def Progression.ofValue (value : ℚ) : Progression :=
  (ProgressionTemplated.construct value).object

/-- The values of the type `float`: the numbers it represents, the two
infinities, and NaN. -/
inductive FloatValue
  | number (q : ℚ)
  | positiveInfinity
  | negativeInfinity
  | notANumber
  deriving DecidableEq

/-- The comparison `a > b` of two values of `float`; it is false as soon as
one of them is NaN. -/
def FloatValue.gt : FloatValue → FloatValue → Bool
  | FloatValue.number a, FloatValue.number b => decide (a > b)
  | FloatValue.positiveInfinity, FloatValue.number _ => true
  | FloatValue.positiveInfinity, FloatValue.negativeInfinity => true
  | FloatValue.number _, FloatValue.negativeInfinity => true
  | _, _ => false

/-- Whether a value of `float` is a number of the interval [0,1]. -/
def FloatValue.inUnitInterval : FloatValue → Bool
  | FloatValue.number q => decide (0 ≤ q) && decide (q ≤ 1)
  | _ => false

/-- The class `ProgressionTemplated<float, assert_politic>`, which the alias
`Progression` names, with every value a `float` can hold. -/
structure FloatProgression where
  m_min : FloatValue
  m_current : FloatValue
  m_max : FloatValue
  deriving DecidableEq

/-- The private `validate()` at `float`: `true` when the policy is invoked. -/
def FloatProgression.validate (p : FloatProgression) : Bool :=
  FloatValue.gt p.m_min p.m_current || FloatValue.gt p.m_current p.m_max

/-- A validated write at `float`: the object as stored, and whether the
policy fired. -/
structure FloatValidated where
  object : FloatProgression
  fired : Bool
  deriving DecidableEq

/-- The constructor `ProgressionTemplated(T value)` at `float`. -/
def FloatProgression.construct (value : FloatValue) : FloatValidated :=
  { object := { m_min := FloatValue.number 0, m_current := value, m_max := FloatValue.number 1 },
    fired := FloatProgression.validate
      { m_min := FloatValue.number 0, m_current := value, m_max := FloatValue.number 1 } }

/-- The member `operator =` and each operator of the `OP` family at `float`:
the value `result` that the operator computed in `float` arithmetic is stored,
then `validate()` runs. -/
def FloatProgression.store (p : FloatProgression) (result : FloatValue) : FloatValidated :=
  { object := { p with m_current := result },
    fired := FloatProgression.validate { p with m_current := result } }

/-- The `float` progress objects a program can hold under `assert_politic`:
those that the constructor and the operators built without the policy firing,
whatever values the operators computed. -/
inductive FloatProgression.Built : FloatProgression → Prop
  | construct (value : FloatValue) (h : (FloatProgression.construct value).fired = false) :
      FloatProgression.Built (FloatProgression.construct value).object
  | store (p : FloatProgression) (result : FloatValue) (hp : FloatProgression.Built p)
      (h : (p.store result).fired = false) : FloatProgression.Built (p.store result).object

/-! ## Concept.h -/

/-- The enumeration `KindOfError`. -/
inductive KindOfError
  | INFORMATION
  | WARNING
  | ERROR
  deriving DecidableEq, Repr

/-- The alias `Issue = std::tuple<std::string, KindOfError>`. -/
abbrev Issue := String × KindOfError

/-- A value of `std::type_index`. -/
abbrev TypeIndex := Nat

/-- The ways a call ends the program: a failed assertion of the library, or
indexing `m_queues` out of range, which only a pool of zero threads does. -/
inductive Fatal
  | returnValueNotCorrect
  | runnableRunTwice
  | queueIndexOutOfRange
  deriving DecidableEq, Repr

/-! ## Model.h -/

/-- The class `Model<T, Args...>` with its `Concept<Args...>` base.
`call` is `T::operator()` (it may change the callable), `progressionHook` and
`issuesHook` are present exactly when `hasProgression` and `hasIssues` hold,
`movedFrom` is the content a result slot keeps after `std::move`. -/
structure Model (T Args R : Type) where
  m_returnTypeIndex : TypeIndex
  call : T → Args → R × T
  progressionHook : Option (T → Option Progression)
  issuesHook : Option (T → List Issue)
  movedFrom : R → R
  m_data : T
  m_result : R

namespace Model

variable {T Args R : Type}

/-- The member `Concept::checkReturnType<T>()`, `t` being `typeid(T)`. -/
def checkReturnType (m : Model T Args R) (t : TypeIndex) : Except Fatal Unit :=
  if m.m_returnTypeIndex = t then .ok () else .error Fatal.returnValueNotCorrect

/-- The member `Model::launch(Args... args)`. -/
def launch (m : Model T Args R) (args : Args) : Model T Args R :=
  { m with m_result := (m.call m.m_data args).1, m_data := (m.call m.m_data args).2 }

/-- The member `Model::retrieveResult(void *p)`: the value written through
`p`, and the model with its moved-from result slot. -/
def retrieveResult (m : Model T Args R) : R × Model T Args R :=
  (m.m_result, { m with m_result := m.movedFrom m.m_result })

/-- The member `Model::progression()`. -/
def progression (m : Model T Args R) : Option Progression :=
  match m.progressionHook with
  | some hook => hook m.m_data
  | none => none

/-- The member `Model::issues()`. -/
def issues (m : Model T Args R) : List Issue :=
  match m.issuesHook with
  | some hook => hook m.m_data
  | none => []

end Model

/-! ## Runnable.h -/

/-- The class `Runnable<Args...>` owning a `Model<T, Args...>`. -/
structure Runnable (T Args R : Type) where
  m_objectToRun : Model T Args R
  m_startTime : Int
  m_isStarted : Bool
  m_endTime : Int
  m_isFinished : Bool

/-- What a call of `getResult<T>()` does: abort, throw, or return. -/
inductive GetResult (R : Type)
  | fatal (f : Fatal)
  | notAvailable
  | value (v : R)

namespace Runnable

variable {T Args R : Type}

/-- The constructor `Runnable(T t)`: both flags start `false`. -/
def create (m : Model T Args R) : Runnable T Args R :=
  { m_objectToRun := m, m_startTime := 0, m_isStarted := false, m_endTime := 0,
    m_isFinished := false }

/-- The member `isStarted()`. -/
def isStarted (r : Runnable T Args R) : Bool :=
  r.m_isStarted

/-- The member `isFinished()`. -/
def isFinished (r : Runnable T Args R) : Bool :=
  r.m_isFinished

/-- Line `m_startTime = Clock::now();` of `launch`. -/
def recordStart (now : Int) (r : Runnable T Args R) : Runnable T Args R :=
  { r with m_startTime := now }

/-- Line `m_isStarted.store(true, ...)` of `launch`. -/
def storeStarted (r : Runnable T Args R) : Runnable T Args R :=
  { r with m_isStarted := true }

/-- Line `m_objectToRun->launch(std::forward<Args>(args)...)` of `launch`. -/
def invoke (args : Args) (r : Runnable T Args R) : Runnable T Args R :=
  { r with m_objectToRun := r.m_objectToRun.launch args }

/-- Line `m_endTime = Clock::now();` of `launch`. -/
def recordEnd (now : Int) (r : Runnable T Args R) : Runnable T Args R :=
  { r with m_endTime := now }

/-- Line `m_isFinished.store(true, ...)` of `launch`. -/
def storeFinished (r : Runnable T Args R) : Runnable T Args R :=
  { r with m_isFinished := true }

/-- The member `launch(Args... args)`; `tStart` and `tEnd` are the two clock
readings. The first assertion fails on a runnable already started. -/
def launch (tStart tEnd : Int) (args : Args) (r : Runnable T Args R) :
    Except Fatal (Runnable T Args R) :=
  if r.isStarted then .error Fatal.runnableRunTwice
  else .ok (storeFinished (recordEnd tEnd (invoke args (storeStarted (recordStart tStart r)))))

/-- The member `getResult<T>()`, `t` being `typeid(T)`: the outcome and the
runnable afterwards. -/
def getResult (t : TypeIndex) (r : Runnable T Args R) : GetResult R × Runnable T Args R :=
  match r.m_objectToRun.checkReturnType t with
  | .error f => (GetResult.fatal f, r)
  | .ok _ =>
    if !r.isFinished then (GetResult.notAvailable, r)
    else (GetResult.value r.m_objectToRun.retrieveResult.1,
          { r with m_objectToRun := r.m_objectToRun.retrieveResult.2 })

/-- The conversion `duration_cast<TimeUnit>` of a whole number of nanoseconds,
`unit` being the length of one `TimeUnit` in nanoseconds. -/
def durationCast (unit : Nat) (d : Int) : Int :=
  Int.tdiv d unit

/-- The conversion `duration_cast<TimeUnit>` of a fractional number of
nanoseconds: division by the unit, then truncation toward zero. -/
def durationCastFrac (unit : Nat) (d : ℚ) : Int :=
  Int.tdiv (d / unit).num (d / unit).den

/-- The member `getElapsedTime<TimeUnit>()`, `now` being `Clock::now()`. -/
def getElapsedTime (unit : Nat) (now : Int) (r : Runnable T Args R) : Int :=
  if !r.isStarted then 0
  else if r.isFinished then durationCast unit (r.m_endTime - r.m_startTime)
  else durationCast unit (now - r.m_startTime)

end Runnable

/-- The free function `getProgression(const Runnable<Args...> &)`. -/
def getProgression {T Args R : Type} (runnable : Runnable T Args R) : Option Progression :=
  if !runnable.isStarted then some (Progression.ofValue 0)
  else if runnable.isFinished then some (Progression.ofValue 1)
  else runnable.m_objectToRun.progression

/-- The free function `getProgression(const Runnable<Args...> &)` with the
progress objects at `float`; `objectProgression` is what
`m_objectToRun->progression()` returns. -/
def getProgressionFloat {T Args R : Type} (runnable : Runnable T Args R)
    (objectProgression : Option FloatProgression) : Option FloatProgression :=
  if !runnable.isStarted then some (FloatProgression.construct (FloatValue.number 0)).object
  else if runnable.isFinished then some (FloatProgression.construct (FloatValue.number 1)).object
  else objectProgression

/-- The free function `getIssues(const Runnable<Args...> &)`. -/
def getIssues {T Args R : Type} (runnable : Runnable T Args R) : List Issue :=
  runnable.m_objectToRun.issues

namespace Runnable

variable {T Args R : Type}

/-- The local `epsilon = 0.00001` of `getRemainingTime`. -/
def epsilon : ℚ := 1 / 100000

/-- The operand of the final `duration_cast` in `getRemainingTime`, present
when the `if` on `getProgression(*this)` is taken. -/
def remainingTimeEstimate (now : Int) (r : Runnable T Args R) : Option ℚ :=
  match getProgression r with
  | some progression =>
    let currentTime : ℚ := r.getElapsedTime 1 now
    let timeInNanoseconds : ℚ := (1 / (progression.toValue + epsilon)) * currentTime
    some (timeInNanoseconds * (1 - progression.toValue))
  | none => none

/-- The member `getRemainingTime<TimeUnit>()`. -/
def getRemainingTime (unit : Nat) (now : Int) (r : Runnable T Args R) : Option Int :=
  (r.remainingTimeEstimate now).map (durationCastFrac unit)

end Runnable

/-! ### The statements of `launch` one at a time -/

/-- The place a call of `launch` has reached. -/
inductive LaunchPoint
  | notCalled
  | startTimeWritten
  | startedStored
  | taskReturned
  | endTimeWritten
  | returned
  deriving DecidableEq, Repr

/-- A runnable together with the progress of its `launch` call; `endStamp`
records the value the statement `m_endTime = Clock::now()` has written. -/
structure Execution (T Args R : Type) where
  runnable : Runnable T Args R
  point : LaunchPoint
  endStamp : Option Int

namespace Execution

variable {T Args R : Type}

/-- A runnable as constructed, `launch` not yet called. -/
def fresh (m : Model T Args R) : Execution T Args R :=
  { runnable := Runnable.create m, point := LaunchPoint.notCalled, endStamp := none }

/-- The next statement of `launch(args)`, `now` being the clock reading it
takes if it reads the clock. No statement remains once `launch` has returned,
and the entry assertion stops a call on a started runnable. -/
def step (now : Int) (args : Args) (e : Execution T Args R) : Option (Execution T Args R) :=
  match e.point with
  | LaunchPoint.notCalled =>
    if e.runnable.isStarted then none
    else some { e with runnable := e.runnable.recordStart now,
                       point := LaunchPoint.startTimeWritten }
  | LaunchPoint.startTimeWritten =>
    some { e with runnable := e.runnable.storeStarted, point := LaunchPoint.startedStored }
  | LaunchPoint.startedStored =>
    some { e with runnable := e.runnable.invoke args, point := LaunchPoint.taskReturned }
  | LaunchPoint.taskReturned =>
    some { runnable := e.runnable.recordEnd now, point := LaunchPoint.endTimeWritten,
           endStamp := some now }
  | LaunchPoint.endTimeWritten =>
    some { e with runnable := e.runnable.storeFinished, point := LaunchPoint.returned }
  | LaunchPoint.returned => none

/-- The states a fresh runnable reaches through the statements of `launch`. -/
inductive Reachable (m : Model T Args R) : Execution T Args R → Prop
  | start : Reachable m (fresh m)
  | next (now : Int) (args : Args) (e e' : Execution T Args R) (h : Reachable m e)
      (hs : step now args e = some e') : Reachable m e'

/-- What each place of `launch` fixes about the flags and the end timestamp. -/
def Consistent (e : Execution T Args R) : Prop :=
  match e.point with
  | LaunchPoint.notCalled => e.runnable.isStarted = false ∧ e.runnable.isFinished = false
  | LaunchPoint.startTimeWritten =>
    e.runnable.isStarted = false ∧ e.runnable.isFinished = false
  | LaunchPoint.startedStored => e.runnable.isStarted = true ∧ e.runnable.isFinished = false
  | LaunchPoint.taskReturned => e.runnable.isStarted = true ∧ e.runnable.isFinished = false
  | LaunchPoint.endTimeWritten =>
    e.runnable.isStarted = true ∧ e.runnable.isFinished = false ∧
      e.endStamp = some e.runnable.m_endTime
  | LaunchPoint.returned =>
    e.runnable.isStarted = true ∧ e.runnable.isFinished = true ∧
      e.endStamp = some e.runnable.m_endTime

end Execution

/-! ## RunnableQueue.h -/

/-- The class `RunnableQueue`: the vector `m_runnables` (its back is the last
element of the list) and the flag `m_done`; `α` is `RunnableAndArgs*`. -/
structure RunnableQueue (α : Type) where
  m_runnables : List α
  m_done : Bool
  deriving DecidableEq

/-- What a call of `pop` does once it is past the lock: it returns a pointer
(`none` for `nullptr`) and leaves a queue, or the caller is suspended in
`m_conditionVariable.wait` until the wait condition holds. -/
inductive PopResult (α : Type)
  | returned (item : Option α) (q : RunnableQueue α)
  | waits
  deriving DecidableEq

namespace RunnableQueue

variable {α : Type}

/-- The constructor `RunnableQueue()`. -/
def empty : RunnableQueue α :=
  { m_runnables := [], m_done := false }

/-- The member `isDone()`. -/
def isDone (q : RunnableQueue α) : Bool :=
  q.m_done

/-- The predicate given to `m_conditionVariable.wait`. -/
def waitCondition (q : RunnableQueue α) : Bool :=
  q.m_done || !q.m_runnables.isEmpty

/-- The member `pop(tryToLock...)`. `tryToLock` tells whether
`std::try_to_lock` is passed and `lockFree` whether the mutex can be acquired
at once; without `std::try_to_lock` the lock is always obtained, and `q` is the
queue at that moment. -/
def pop (tryToLock lockFree : Bool) (q : RunnableQueue α) : PopResult α :=
  if tryToLock && !lockFree then PopResult.returned none q
  else if !q.waitCondition then PopResult.waits
  else if q.m_done || q.m_runnables.isEmpty then PopResult.returned none q
  else PopResult.returned q.m_runnables.getLast?
    { q with m_runnables := q.m_runnables.dropLast }

/-- The member `push(runnableToPush, tryToLock...)`. -/
def push (runnableToPush : α) (tryToLock lockFree : Bool) (q : RunnableQueue α) :
    Bool × RunnableQueue α :=
  if tryToLock && !lockFree then (false, q)
  else (true, { q with m_runnables := q.m_runnables ++ [runnableToPush] })

/-- The member `finish()`. -/
def finish (q : RunnableQueue α) : RunnableQueue α :=
  { q with m_done := true }

/-- Pushing the items of a list one after the other, lock always obtained. -/
def pushAll (items : List α) (q : RunnableQueue α) : RunnableQueue α :=
  items.foldl (fun acc x => (acc.push x false true).2) q

/-- Calling `pop` a number of times on one thread: the pointers returned, in
call order, and the queue left; `none` when one of the calls would wait. -/
def popMany : Nat → RunnableQueue α → Option (List (Option α) × RunnableQueue α)
  | 0, q => some ([], q)
  | n + 1, q =>
    match q.pop false true with
    | PopResult.waits => none
    | PopResult.returned item q' =>
      match popMany n q' with
      | some (items, q'') => some (item :: items, q'')
      | none => none

end RunnableQueue

/-! ## ThreadPool.h -/

/-- The address of an element of a vector: the buffer it lives in and its
position there. This is the value of a `RunnableAndArgs*`. -/
structure Address where
  buffer : Nat
  index : Nat
  deriving DecidableEq, Repr

/-- The container `std::vector` as far as element addresses go: the buffer
currently owned, its capacity, and the elements. -/
structure StdVector (α : Type u) where
  buffer : Nat
  capacity : Nat
  elems : List α

namespace StdVector

variable {α : Type u}

/-- A default-constructed vector: no elements, no capacity. -/
def empty : StdVector α :=
  { buffer := 0, capacity := 0, elems := [] }

/-- The member `size()`. -/
def size (v : StdVector α) : Nat :=
  v.elems.length

/-- The member `emplace_back`, returning the address of the new element.
While capacity remains the element is built in place; otherwise the elements
move to a newly allocated buffer whose capacity `grow` chooses, and
every address into the old buffer stops designating an element. -/
def emplace_back (grow : Nat → Nat) (v : StdVector α) (x : α) : Address × StdVector α :=
  if v.size < v.capacity then
    ({ buffer := v.buffer, index := v.size }, { v with elems := v.elems ++ [x] })
  else
    ({ buffer := v.buffer + 1, index := v.size },
     { buffer := v.buffer + 1, capacity := max (grow v.capacity) (v.size + 1),
       elems := v.elems ++ [x] })

/-- Calls of `emplace_back` for the elements of a list, one after the other. -/
def emplaceAll (grow : Nat → Nat) (xs : List α) (v : StdVector α) : StdVector α :=
  xs.foldl (fun acc x => (acc.emplace_back grow x).2) v

/-- The member `clear()`. -/
def clear (v : StdVector α) : StdVector α :=
  { v with elems := [] }

/-- Reading through an element address: the element it designates, or
nothing when it points into a buffer the vector no longer owns. -/
def deref (v : StdVector α) (p : Address) : Option α :=
  if p.buffer = v.buffer then v.elems[p.index]? else none

end StdVector

/-- The growth rule of a vector that doubles its capacity. -/
def doubling (capacity : Nat) : Nat :=
  max 1 (2 * capacity)

/-- A `Runnable<Args...>` seen through its type-erasing `Concept` pointer:
the callable type and the result type are hidden in the value. -/
structure AnyRunnable (Args : Type) : Type 1 where
  T : Type
  R : Type
  runnable : Runnable T Args R

/-- The alias `RunnableAndArgs`: a runnable taking the contexts `C` followed
by the arguments `A`, stored with the arguments given at submission. -/
abbrev RunnableAndArgs (C A : Type) : Type 1 := AnyRunnable (C × A) × A

/-- The class `ThreadPoolWithContextsAndArgs`; the worker threads are the
callers of the worker functions below. -/
structure ThreadPoolWithContextsAndArgs (C A : Type) where
  m_threadNumber : Nat
  m_runnables : StdVector (RunnableAndArgs C A)
  m_queues : List (RunnableQueue Address)

namespace ThreadPoolWithContextsAndArgs

variable {C A : Type}

/-- The constructor taking `numberOfThreads`. -/
def create (numberOfThreads : Nat) : ThreadPoolWithContextsAndArgs C A :=
  { m_threadNumber := numberOfThreads, m_runnables := StdVector.empty,
    m_queues := List.replicate numberOfThreads RunnableQueue.empty }

/-- The loop of `tryToPushToOneQueue` from queue number `i` on; `locks j`
tells whether the mutex of queue `j` can be acquired at once. -/
def tryToPushFrom (locks : Nat → Bool) (runnablePtr : Address) :
    Nat → List (RunnableQueue Address) → Bool × List (RunnableQueue Address)
  | _, [] => (false, [])
  | i, q :: qs =>
    if (q.push runnablePtr true (locks i)).1 then
      (true, (q.push runnablePtr true (locks i)).2 :: qs)
    else
      ((tryToPushFrom locks runnablePtr (i + 1) qs).1,
       (q.push runnablePtr true (locks i)).2 :: (tryToPushFrom locks runnablePtr (i + 1) qs).2)

/-- The member `tryToPushToOneQueue`. -/
def tryToPushToOneQueue (locks : Nat → Bool) (runnablePtr : Address)
    (queues : List (RunnableQueue Address)) : Bool × List (RunnableQueue Address) :=
  tryToPushFrom locks runnablePtr 0 queues

/-- The member `addRunnable`: the handle returned and the pool afterwards.
`grow` is the growth rule of the vector, `locks` the lock availability during
the non-blocking attempts; the final blocking `push` obtains its lock. -/
def addRunnable (grow : Nat → Nat) (locks : Nat → Bool) (runnable : AnyRunnable (C × A))
    (args : A) (pool : ThreadPoolWithContextsAndArgs C A) :
    Except Fatal (Address × ThreadPoolWithContextsAndArgs C A) :=
  let runnablePtr := (pool.m_runnables.emplace_back grow (runnable, args)).1
  let stored := (pool.m_runnables.emplace_back grow (runnable, args)).2
  let attempt := tryToPushToOneQueue locks runnablePtr pool.m_queues
  if attempt.1 then
    .ok (runnablePtr, { pool with m_runnables := stored, m_queues := attempt.2 })
  else
    match attempt.2[(stored.size - 1) % pool.m_threadNumber]? with
    | some q =>
      .ok (runnablePtr,
        { pool with
          m_runnables := stored
          m_queues := attempt.2.set ((stored.size - 1) % pool.m_threadNumber)
            (q.push runnablePtr false true).2 })
    | none => .error Fatal.queueIndexOutOfRange

/-- The closure `applyContext` of `run` applied to the worker's context
`vars` and a popped entry: `launch(contexts..., args...)` on its runnable. -/
def applyContext (vars : C) (tStart tEnd : Int) (entry : RunnableAndArgs C A) :
    Except Fatal (RunnableAndArgs C A) :=
  match entry.1.runnable.launch tStart tEnd (vars, entry.2) with
  | .ok r => .ok ({ T := entry.1.T, R := entry.1.R, runnable := r }, entry.2)
  | .error f => .error f

/-- The width in bits of `unsigned int`, the type of the value that
`std::thread::hardware_concurrency()` returns. -/
def unsignedIntBits : Nat := 32

/-- The width in bits of `std::size_t`. -/
def sizeBits : Nat := 64

/-- The argument the default constructor delegates with,
`std::max<std::size_t>(std::thread::hardware_concurrency() - 1, 1)`: the
subtraction is carried out in `unsigned int`, its result converted to
`std::size_t`. -/
def defaultThreadNumber (hardwareConcurrency : Nat) : Nat :=
  max (((hardwareConcurrency + 2 ^ unsignedIntBits - 1) % 2 ^ unsignedIntBits) % 2 ^ sizeBits) 1

/-- The default constructor, `hardwareConcurrency` being the value the
platform reports. -/
def createDefault (hardwareConcurrency : Nat) : ThreadPoolWithContextsAndArgs C A :=
  create (defaultThreadNumber hardwareConcurrency)

/-- What a worker's search for work does: it returns a pointer (`none` for
`nullptr`) and leaves the queues, or the worker is suspended inside `pop` on
the condition of the queue whose number is given. -/
inductive FetchResult
  | returned (item : Option Address) (queues : List (RunnableQueue Address))
  | waits (queue : Nat)
  deriving DecidableEq

/-- The loop of `tryToPopFromOneQueue` from queue number `i` on; `locks j`
tells whether the mutex of queue `j` can be acquired at once. -/
def tryToPopFrom (locks : Nat → Bool) :
    Nat → List (RunnableQueue Address) → FetchResult
  | _, [] => FetchResult.returned none []
  | i, q :: qs =>
    match q.pop true (locks i) with
    | PopResult.waits => FetchResult.waits i
    | PopResult.returned (some runnable) q' => FetchResult.returned (some runnable) (q' :: qs)
    | PopResult.returned none q' =>
      match tryToPopFrom locks (i + 1) qs with
      | FetchResult.waits k => FetchResult.waits k
      | FetchResult.returned item qs' => FetchResult.returned item (q' :: qs')

/-- The member `tryToPopFromOneQueue`. -/
def tryToPopFromOneQueue (locks : Nat → Bool) (queues : List (RunnableQueue Address)) :
    FetchResult :=
  tryToPopFrom locks 0 queues

/-- The member `getRunnableAndArgs`, `own` being the number of the queue the
worker was started with (`currentQueue`). -/
def getRunnableAndArgs (own : Nat) (locks : Nat → Bool)
    (queues : List (RunnableQueue Address)) : FetchResult :=
  match tryToPopFromOneQueue locks queues with
  | FetchResult.waits k => FetchResult.waits k
  | FetchResult.returned (some runnable) queues' => FetchResult.returned (some runnable) queues'
  | FetchResult.returned none queues' =>
    match queues'[own]? with
    | some currentQueue =>
      match currentQueue.pop false true with
      | PopResult.waits => FetchResult.waits own
      | PopResult.returned item q' => FetchResult.returned item (queues'.set own q')
    | none => FetchResult.returned none queues'

end ThreadPoolWithContextsAndArgs

/-! ### The pool with its workers -/

/-- The pointers held by a list of queues, queue after queue. -/
def allQueued : List (RunnableQueue Address) → List Address
  | [] => []
  | q :: qs => q.m_runnables ++ allQueued qs

/-- A pool together with what its workers hold: `inHand` are the pointers a
worker has popped and not yet launched, `launched` the pointers through which
`launch` has been called on a stored entry, and `undefinedBehaviour` tells
whether a worker has called `launch` through a pointer that designates no
stored entry. -/
structure Dispatcher (C A : Type) where
  pool : ThreadPoolWithContextsAndArgs C A
  inHand : List Address
  launched : List Address
  undefinedBehaviour : Bool

namespace Dispatcher

variable {C A : Type}

/-- A pool of `numberOfThreads` workers as constructed. -/
def init (numberOfThreads : Nat) : Dispatcher C A :=
  { pool := ThreadPoolWithContextsAndArgs.create numberOfThreads, inHand := [], launched := [],
    undefinedBehaviour := false }

/-- The steps of the dispatcher: `addRunnable` with a newly built runnable; a
worker's `pop` on some queue (with or without `std::try_to_lock`) that returns
a pointer; a worker's `launch` through a pointer it holds. The worker
dereferences whatever it popped: when the pointer designates a stored entry
the entry is launched (`launch`), and when vector growth has left it
designating nothing the call is undefined behaviour (`launchDangling`). -/
inductive Step : Dispatcher C A → Dispatcher C A → Prop
  | add (d : Dispatcher C A) (grow : Nat → Nat) (locks : Nat → Bool) (T R : Type)
      (m : Model T (C × A) R) (args : A) (runnablePtr : Address)
      (pool' : ThreadPoolWithContextsAndArgs C A)
      (h : d.pool.addRunnable grow locks { T := T, R := R, runnable := Runnable.create m } args
        = .ok (runnablePtr, pool')) :
      Step d { d with pool := pool' }
  | pop (d : Dispatcher C A) (k : Nat) (q q' : RunnableQueue Address)
      (tryToLock lockFree : Bool) (runnablePtr : Address)
      (hq : d.pool.m_queues[k]? = some q)
      (h : q.pop tryToLock lockFree = PopResult.returned (some runnablePtr) q') :
      Step d { d with pool := { d.pool with m_queues := d.pool.m_queues.set k q' },
                      inHand := runnablePtr :: d.inHand }
  | launch (d : Dispatcher C A) (runnablePtr : Address) (vars : C) (tStart tEnd : Int)
      (entry entry' : RunnableAndArgs C A)
      (hHeld : runnablePtr ∈ d.inHand)
      (hEntry : d.pool.m_runnables.deref runnablePtr = some entry)
      (h : ThreadPoolWithContextsAndArgs.applyContext vars tStart tEnd entry = .ok entry') :
      Step d { pool := { d.pool with
                 m_runnables := { d.pool.m_runnables with
                   elems := d.pool.m_runnables.elems.set runnablePtr.index entry' } },
               inHand := d.inHand.erase runnablePtr,
               launched := runnablePtr :: d.launched,
               undefinedBehaviour := d.undefinedBehaviour }
  | launchDangling (d : Dispatcher C A) (runnablePtr : Address)
      (hHeld : runnablePtr ∈ d.inHand)
      (hEntry : d.pool.m_runnables.deref runnablePtr = none) :
      Step d { d with inHand := d.inHand.erase runnablePtr, undefinedBehaviour := true }

/-- The states the dispatcher reaches from a pool as constructed. -/
inductive Reachable (numberOfThreads : Nat) : Dispatcher C A → Prop
  | start : Reachable numberOfThreads (init numberOfThreads)
  | next (d d' : Dispatcher C A) (h : Reachable numberOfThreads d) (hs : Step d d') :
      Reachable numberOfThreads d'

/-- Every pointer the dispatcher knows of: queued, held or launched. -/
def known (d : Dispatcher C A) : List Address :=
  allQueued d.pool.m_queues ++ d.inHand ++ d.launched

/-- The bookkeeping facts kept by every step: the known pointers designate
pairwise different positions of the storage, all inside it, and the runnable
at the position of a queued or held pointer is not started. -/
def Sound (d : Dispatcher C A) : Prop :=
  (d.known.map Address.index).Nodup ∧
  (∀ p ∈ d.known, p.index < d.pool.m_runnables.size) ∧
  (∀ p ∈ allQueued d.pool.m_queues ++ d.inHand, ∀ entry : RunnableAndArgs C A,
    d.pool.m_runnables.elems[p.index]? = some entry → entry.1.runnable.isStarted = false)

end Dispatcher

/-! ## Example inputs -/

/-- The callable `f(ctx, a) = ctx + a` with result type index `7`. -/
def sumModel : Model Unit (Int × Int) Int :=
  { m_returnTypeIndex := 7, call := fun d args => (args.1 + args.2, d),
    progressionHook := none, issuesHook := none, movedFrom := fun v => v,
    m_data := (), m_result := 0 }

/-- The callable of `testArgs`, `f(a, b) = a + b`, in a pool without context. -/
def testArgsModel : Model Unit (Unit × Int × Int) Int :=
  { m_returnTypeIndex := 7, call := fun d args => (args.2.1 + args.2.2, d),
    progressionHook := none, issuesHook := none, movedFrom := fun v => v,
    m_data := (), m_result := 0 }

/-- The callable `f(ctx, a) = ctx + a` with a progress hook that reports the
constant `p`. -/
def progressModel (p : ℚ) : Model Unit (Int × Int) Int :=
  { sumModel with progressionHook := some (fun _ => some (Progression.ofValue p)) }

/-- A runnable of `progressModel p` started at time 0 and still running. -/
def runningRunnable (p : ℚ) : Runnable Unit (Int × Int) Int :=
  Runnable.storeStarted (Runnable.recordStart 0 (Runnable.create (progressModel p)))

/-- A task for a pool with an `Int` context and an `Int` argument. -/
def exampleTask : AnyRunnable (Int × Int) :=
  { T := Unit, R := Int, runnable := Runnable.create sumModel }

/-- A pool of two workers, as constructed. -/
def examplePool : ThreadPoolWithContextsAndArgs Int Int :=
  ThreadPoolWithContextsAndArgs.create 2

/-- A pool of one worker, as constructed. -/
def singlePool : ThreadPoolWithContextsAndArgs Int Int :=
  ThreadPoolWithContextsAndArgs.create 1

/-- Lock availability with only the mutex of queue 1 free. -/
def onlySecondFree (j : Nat) : Bool :=
  decide (j = 1)

/-- Lock availability with every mutex free. -/
def allFree (_ : Nat) : Bool :=
  true

/-- The pool of one worker after `addRunnable` of the example task with
argument 1, every mutex free and the vector doubling. -/
def submittedPool : ThreadPoolWithContextsAndArgs Int Int :=
  { m_threadNumber := 1,
    m_runnables := { buffer := 1, capacity := 1, elems := [(exampleTask, 1)] },
    m_queues := [{ m_runnables := [{ buffer := 1, index := 0 }], m_done := false }] }

/-- The dispatcher after that submission. -/
def submittedDispatcher : Dispatcher Int Int :=
  { pool := submittedPool, inHand := [], launched := [], undefinedBehaviour := false }

/-- The pool after a second `addRunnable`, with argument 2: the vector has
moved its elements to a new buffer, and the queue still holds the pointer into
the old one. -/
def twiceSubmittedPool : ThreadPoolWithContextsAndArgs Int Int :=
  { m_threadNumber := 1,
    m_runnables := { buffer := 2, capacity := 2, elems := [(exampleTask, 1), (exampleTask, 2)] },
    m_queues := [{ m_runnables := [{ buffer := 1, index := 0 }, { buffer := 2, index := 1 }],
                   m_done := false }] }

/-- The dispatcher after the two submissions. -/
def twiceSubmittedDispatcher : Dispatcher Int Int :=
  { pool := twiceSubmittedPool, inHand := [], launched := [], undefinedBehaviour := false }

/-- The dispatcher after the two submissions and two pops by the worker. -/
def bothPoppedDispatcher : Dispatcher Int Int :=
  { pool := { twiceSubmittedPool with m_queues := [{ m_runnables := [], m_done := false }] },
    inHand := [{ buffer := 1, index := 0 }, { buffer := 2, index := 1 }], launched := [],
    undefinedBehaviour := false }

/-- The dispatcher after the worker has then launched through the pointer to
the first work item. -/
def danglingLaunchDispatcher : Dispatcher Int Int :=
  { pool := { twiceSubmittedPool with m_queues := [{ m_runnables := [], m_done := false }] },
    inHand := [{ buffer := 2, index := 1 }], launched := [], undefinedBehaviour := true }

/-! ## Results of a runnable -/

section Results

variable {T Args R : Type}

/-- A successful `launch` is the five statements in order. -/
theorem Runnable.launch_of_not_started (tStart tEnd : Int) (args : Args)
    (r : Runnable T Args R) (h : r.isStarted = false) :
    r.launch tStart tEnd args = .ok (Runnable.storeFinished
      (Runnable.recordEnd tEnd (Runnable.invoke args
        (Runnable.storeStarted (Runnable.recordStart tStart r))))) := by
  simp [Runnable.launch, h]

/-- Claim C1: on a runnable not yet started, the worker's call
`launch(context, args...)` returns, leaves the runnable finished, and the first
`getResult<T>()` with `T` the declared result type then returns exactly the
value the callable computed from the context followed by the stored arguments. -/
theorem getResult_after_launch_is_computed_value {T C A R : Type}
    (r : Runnable T (C × A) R) (c : C) (a : A) (tStart tEnd : Int)
    (hNotStarted : r.isStarted = false) :
    ∃ r' : Runnable T (C × A) R,
      r.launch tStart tEnd (c, a) = .ok r' ∧
      ThreadPoolWithContextsAndArgs.applyContext c tStart tEnd
        (({ T := T, R := R, runnable := r } : AnyRunnable (C × A)), a)
        = .ok (({ T := T, R := R, runnable := r' } : AnyRunnable (C × A)), a) ∧
      r'.isFinished = true ∧
      (r'.getResult r.m_objectToRun.m_returnTypeIndex).1
        = GetResult.value (r.m_objectToRun.call r.m_objectToRun.m_data (c, a)).1 := by
  refine ⟨_, Runnable.launch_of_not_started tStart tEnd (c, a) r hNotStarted, ?_, ?_, ?_⟩
  · simp [ThreadPoolWithContextsAndArgs.applyContext,
      Runnable.launch_of_not_started tStart tEnd (c, a) r hNotStarted]
  · rfl
  · simp [Runnable.getResult, Model.checkReturnType, Runnable.storeFinished,
      Runnable.recordEnd, Runnable.invoke, Runnable.storeStarted, Runnable.recordStart,
      Model.launch, Model.retrieveResult, Runnable.isFinished]

/-- Claim C1, the two examples of the driver: context 42 with argument 42 under
`f(ctx, a) = ctx + a`, and arguments (42, 42) under `f(a, b) = a + b`, give 84. -/
theorem getResult_after_launch_is_computed_value_witness :
    (∃ r' : Runnable Unit (Int × Int) Int,
      (Runnable.create sumModel).launch 10 20 (42, 42) = .ok r' ∧
      ThreadPoolWithContextsAndArgs.applyContext (42 : Int) 10 20
        (({ T := Unit, R := Int, runnable := Runnable.create sumModel } :
          AnyRunnable (Int × Int)), (42 : Int))
        = .ok (({ T := Unit, R := Int, runnable := r' } : AnyRunnable (Int × Int)), 42) ∧
      r'.isFinished = true ∧
      (r'.getResult 7).1 = GetResult.value 84) ∧
    (∃ r' : Runnable Unit (Unit × Int × Int) Int,
      (Runnable.create testArgsModel).launch 10 20 ((), 42, 42) = .ok r' ∧
      ThreadPoolWithContextsAndArgs.applyContext () 10 20
        (({ T := Unit, R := Int, runnable := Runnable.create testArgsModel } :
          AnyRunnable (Unit × Int × Int)), ((42 : Int), (42 : Int)))
        = .ok (({ T := Unit, R := Int, runnable := r' } : AnyRunnable (Unit × Int × Int)),
            (42, 42)) ∧
      r'.isFinished = true ∧
      (r'.getResult 7).1 = GetResult.value 84) :=
  ⟨getResult_after_launch_is_computed_value (Runnable.create sumModel) 42 42 10 20 rfl,
   getResult_after_launch_is_computed_value (Runnable.create testArgsModel) () (42, 42) 10 20 rfl⟩

/-- Claim C2, counterexample: a fresh, unfinished runnable whose declared
result type has index 7, asked for type index 8, ends in the fatal type check
and not in the recoverable "not available" error. -/
theorem getResult_unfinished_wrong_type_fatal :
    (Runnable.create sumModel).isFinished = false ∧
    (8 : TypeIndex) ≠ (Runnable.create sumModel).m_objectToRun.m_returnTypeIndex ∧
    ((Runnable.create sumModel).getResult 8).1 = GetResult.fatal Fatal.returnValueNotCorrect ∧
    ((Runnable.create sumModel).getResult 8).1 ≠ GetResult.notAvailable := by
  refine ⟨rfl, by decide, rfl, ?_⟩
  intro h
  have h2 : ((Runnable.create sumModel).getResult 8).1
      = GetResult.fatal Fatal.returnValueNotCorrect := rfl
  rw [h2] at h
  cases h

/-- Claim C2, amended: the type check comes first in every lifecycle state, so
a request for another type than the declared one is fatal whether or not the
runnable is finished; on an unfinished runnable a request for the declared type
fails with "not available"; and no request returns a value before completion.
The runnable is left as it was in both failing cases. -/
theorem getResult_type_check_then_availability (r : Runnable T Args R) (t : TypeIndex) :
    (t ≠ r.m_objectToRun.m_returnTypeIndex →
      r.getResult t = (GetResult.fatal Fatal.returnValueNotCorrect, r)) ∧
    (r.isFinished = false → t = r.m_objectToRun.m_returnTypeIndex →
      r.getResult t = (GetResult.notAvailable, r)) ∧
    (r.isFinished = false → ∀ v : R, (r.getResult t).1 ≠ GetResult.value v) := by
  refine ⟨?_, ?_, ?_⟩
  · intro ht
    have ht' : ¬ r.m_objectToRun.m_returnTypeIndex = t := fun h => ht h.symm
    simp [Runnable.getResult, Model.checkReturnType, ht']
  · intro hf ht
    simp [Runnable.getResult, Model.checkReturnType, ht, hf]
  · intro hf v
    by_cases ht : r.m_objectToRun.m_returnTypeIndex = t
    · simp [Runnable.getResult, Model.checkReturnType, ht, hf]
    · simp [Runnable.getResult, Model.checkReturnType, ht]

/-- Claim C2, amended, on the fresh example runnable with declared index 7. -/
theorem getResult_type_check_then_availability_witness :
    ((8 : TypeIndex) ≠ 7 ∧
      (Runnable.create sumModel).getResult 8
        = (GetResult.fatal Fatal.returnValueNotCorrect, Runnable.create sumModel)) ∧
    ((Runnable.create sumModel).isFinished = false ∧
      (Runnable.create sumModel).getResult 7
        = (GetResult.notAvailable, Runnable.create sumModel)) ∧
    (∀ v : Int, ((Runnable.create sumModel).getResult 7).1 ≠ GetResult.value v) :=
  ⟨⟨by decide,
    (getResult_type_check_then_availability (Runnable.create sumModel) 8).1 (by decide)⟩,
   ⟨rfl, (getResult_type_check_then_availability (Runnable.create sumModel) 7).2.1 rfl rfl⟩,
   (getResult_type_check_then_availability (Runnable.create sumModel) 7).2.2 rfl⟩

/-- The estimate of a runnable that is not started is present and is zero. -/
theorem Runnable.getRemainingTime_not_started (unit : Nat) (now : Int)
    (r : Runnable T Args R) (h : r.isStarted = false) :
    r.getRemainingTime unit now = some 0 := by
  simp [Runnable.getRemainingTime, Runnable.remainingTimeEstimate, getProgression, h,
    Runnable.getElapsedTime, Runnable.durationCastFrac]

/-- The estimate of a finished runnable is present and is zero. -/
theorem Runnable.getRemainingTime_finished (unit : Nat) (now : Int)
    (r : Runnable T Args R) (hs : r.isStarted = true) (hf : r.isFinished = true) :
    r.getRemainingTime unit now = some 0 := by
  simp [Runnable.getRemainingTime, Runnable.remainingTimeEstimate, getProgression, hs, hf,
    Runnable.durationCastFrac, Progression.ofValue, ProgressionTemplated.construct,
    ProgressionTemplated.checked, ProgressionTemplated.toValue]

/-- Claim C3, the code at the failing inputs: for a task without progress hook,
`getRemainingTime<milliseconds>()` holds the value 0 instead of being empty,
both before the runnable is started and after it has finished. -/
theorem getRemainingTime_present_without_progress :
    sumModel.progressionHook = none ∧
    (Runnable.create sumModel).isStarted = false ∧
    (Runnable.create sumModel).getRemainingTime 1000000 5 = some 0 ∧
    (∃ r' : Runnable Unit (Int × Int) Int,
      (Runnable.create sumModel).launch 10 20 (42, 42) = .ok r' ∧
      r'.m_objectToRun.progressionHook = none ∧
      r'.isFinished = true ∧
      r'.getRemainingTime 1000000 30 = some 0) :=
  ⟨rfl, rfl, Runnable.getRemainingTime_not_started 1000000 5 (Runnable.create sumModel) rfl,
   _, Runnable.launch_of_not_started 10 20 (42, 42) (Runnable.create sumModel) rfl, rfl, rfl,
   Runnable.getRemainingTime_finished 1000000 30 _ rfl rfl⟩

end Results

/-! ## The work queue -/

section Queue

variable {α : Type}

/-- With the lock held, `pop` on a queue that is not done and ends in `x`
returns `x` and leaves the elements before it. -/
theorem RunnableQueue.pop_concat (tryToLock lockFree : Bool) (l : List α) (x : α)
    (hLock : tryToLock = false ∨ lockFree = true) :
    RunnableQueue.pop tryToLock lockFree { m_runnables := l ++ [x], m_done := false }
      = PopResult.returned (some x) { m_runnables := l, m_done := false } := by
  rcases hLock with h | h <;>
    simp [RunnableQueue.pop, RunnableQueue.waitCondition, h]

/-- Pushing a list of items appends it to the stored vector. -/
theorem RunnableQueue.pushAll_eq (items : List α) (q : RunnableQueue α) :
    q.pushAll items = { q with m_runnables := q.m_runnables ++ items } := by
  induction items generalizing q with
  | nil => simp [RunnableQueue.pushAll]
  | cons x xs ih =>
    have h := ih (q.push x false true).2
    simp only [RunnableQueue.pushAll, List.foldl_cons] at h ⊢
    rw [h]
    simp [RunnableQueue.push]

/-- Popping as many times as there are items above `base` returns them from
the back and leaves `base`. -/
theorem RunnableQueue.popMany_append (base items : List α) :
    RunnableQueue.popMany items.length { m_runnables := base ++ items, m_done := false }
      = some (items.reverse.map some, { m_runnables := base, m_done := false }) := by
  induction items using List.reverseRecOn with
  | nil => simp [RunnableQueue.popMany]
  | append_singleton xs x ih =>
    have hpop := RunnableQueue.pop_concat false true (base ++ xs) x (Or.inl rfl)
    rw [List.append_assoc] at hpop
    simp only [List.length_append, List.length_singleton, RunnableQueue.popMany, hpop, ih]
    simp

/-- Claim C4: on one thread, on a queue that is not done, pushing M items and
then calling `pop` M times returns exactly the pushed items in the reverse of
the push order, none of the calls waits, every one of M distinct items comes
back exactly once, and the queue is left as it was before the pushes, hence
empty when it was empty. -/
theorem push_then_pop_is_lifo (q : RunnableQueue α) (items : List α)
    (hNotDone : q.m_done = false) :
    RunnableQueue.popMany items.length (q.pushAll items)
      = some (items.reverse.map some, q) ∧
    (items.Nodup →
      (items.reverse.map some).Nodup ∧ ∀ x ∈ items, some x ∈ items.reverse.map some) ∧
    (∀ y ∈ items.reverse.map some, ∃ x ∈ items, y = some x) ∧
    (q.m_runnables = [] →
      ∃ final : RunnableQueue α,
        RunnableQueue.popMany items.length (q.pushAll items)
          = some (items.reverse.map some, final) ∧ final.m_runnables = []) := by
  have hq : q = { m_runnables := q.m_runnables, m_done := false } := by
    cases q
    simp_all
  have hmain : RunnableQueue.popMany items.length (q.pushAll items)
      = some (items.reverse.map some, q) := by
    rw [RunnableQueue.pushAll_eq, hNotDone]
    have h := RunnableQueue.popMany_append q.m_runnables items
    rw [h, ← hq]
  refine ⟨hmain, ?_, ?_, ?_⟩
  · intro hnd
    have hinj : Function.Injective (some : α → Option α) := fun a b h => Option.some.inj h
    exact ⟨(List.nodup_reverse.2 hnd).map hinj,
      fun x hx => List.mem_map_of_mem some (List.mem_reverse.2 hx)⟩
  · intro y hy
    rcases List.mem_map.1 hy with ⟨x, hx, rfl⟩
    exact ⟨x, List.mem_reverse.1 hx, rfl⟩
  · intro hempty
    exact ⟨q, hmain, hempty⟩

/-- Claim C4 on a fresh queue and the items 1, 2, 3. -/
theorem push_then_pop_is_lifo_witness :
    RunnableQueue.popMany 3 ((RunnableQueue.empty : RunnableQueue Nat).pushAll [1, 2, 3])
      = some ([some 3, some 2, some 1], RunnableQueue.empty) :=
  (push_then_pop_is_lifo (RunnableQueue.empty : RunnableQueue Nat) [1, 2, 3] rfl).1

end Queue

/-! ## Submission to the pool -/

section Submission

variable {C A : Type}

/-- The non-blocking attempts either append the pointer to the first queue
whose mutex is free and touch nothing else, or find every mutex taken and
change nothing. -/
theorem ThreadPoolWithContextsAndArgs.tryToPushFrom_spec (locks : Nat → Bool)
    (runnablePtr : Address) (queues : List (RunnableQueue Address)) (i : Nat) :
    (∃ (k : Nat) (q : RunnableQueue Address), queues[k]? = some q ∧ locks (i + k) = true ∧
      (∀ j < k, locks (i + j) = false) ∧
      ThreadPoolWithContextsAndArgs.tryToPushFrom locks runnablePtr i queues
        = (true, queues.set k { q with m_runnables := q.m_runnables ++ [runnablePtr] })) ∨
    ((∀ j < queues.length, locks (i + j) = false) ∧
      ThreadPoolWithContextsAndArgs.tryToPushFrom locks runnablePtr i queues
        = (false, queues)) := by
  induction queues generalizing i with
  | nil =>
    right
    exact ⟨fun j hj => absurd hj (Nat.not_lt_zero j), rfl⟩
  | cons q qs ih =>
    cases hl : locks i with
    | true =>
      left
      refine ⟨0, q, by simp, by simpa using hl, fun j hj => absurd hj (Nat.not_lt_zero j), ?_⟩
      simp [ThreadPoolWithContextsAndArgs.tryToPushFrom, RunnableQueue.push, hl]
    | false =>
      rcases ih (i + 1) with ⟨k, q', hk, hlk, hbefore, heq⟩ | ⟨hall, heq⟩
      · left
        refine ⟨k + 1, q', by simpa using hk, ?_, ?_, ?_⟩
        · rw [← hlk]
          congr 1
          omega
        · intro j hj
          cases j with
          | zero => simpa using hl
          | succ j =>
            have := hbefore j (by omega)
            rw [← this]
            congr 1
            omega
        · simp [ThreadPoolWithContextsAndArgs.tryToPushFrom, RunnableQueue.push, hl, heq]
      · right
        refine ⟨?_, ?_⟩
        · intro j hj
          cases j with
          | zero => simpa using hl
          | succ j =>
            have := hall j (by simpa using hj)
            rw [← this]
            congr 1
            omega
        · simp [ThreadPoolWithContextsAndArgs.tryToPushFrom, RunnableQueue.push, hl, heq]

/-- The address `emplace_back` returns designates the new element, and the
vector has one element more. -/
theorem StdVector.emplace_back_spec {β : Type u} (grow : Nat → Nat) (v : StdVector β) (x : β) :
    (v.emplace_back grow x).2.deref (v.emplace_back grow x).1 = some x ∧
    (v.emplace_back grow x).2.size = v.size + 1 ∧
    (v.emplace_back grow x).2.elems = v.elems ++ [x] := by
  unfold StdVector.emplace_back
  split <;> simp [StdVector.deref, StdVector.size]

/-- Claim C6: in a pool with N >= 1 queues, `addRunnable` returns, stores the
new work item, and appends the pointer to it to exactly one queue, every other
queue staying as it was. That queue is the lowest-index one whose mutex can be
acquired at once, or, when none can, the one of index (size - 1) mod N, size
counting the stored items with the new one. -/
theorem addRunnable_places_in_one_queue (grow : Nat → Nat) (locks : Nat → Bool)
    (runnable : AnyRunnable (C × A)) (args : A) (pool : ThreadPoolWithContextsAndArgs C A)
    (hN : 1 ≤ pool.m_threadNumber) (hQ : pool.m_queues.length = pool.m_threadNumber) :
    ∃ (runnablePtr : Address) (pool' : ThreadPoolWithContextsAndArgs C A) (k : Nat)
      (q : RunnableQueue Address),
      pool.addRunnable grow locks runnable args = .ok (runnablePtr, pool') ∧
      pool'.m_runnables.deref runnablePtr = some (runnable, args) ∧
      pool'.m_runnables.size = pool.m_runnables.size + 1 ∧
      pool'.m_threadNumber = pool.m_threadNumber ∧
      k < pool.m_threadNumber ∧
      pool.m_queues[k]? = some q ∧
      pool'.m_queues[k]? = some { q with m_runnables := q.m_runnables ++ [runnablePtr] } ∧
      pool'.m_queues.length = pool.m_queues.length ∧
      (∀ j, j ≠ k → pool'.m_queues[j]? = pool.m_queues[j]?) ∧
      ((locks k = true ∧ ∀ j < k, locks j = false) ∨
       ((∀ j < pool.m_threadNumber, locks j = false) ∧
         k = (pool'.m_runnables.size - 1) % pool.m_threadNumber)) := by
  obtain ⟨hderef, hsize, -⟩ := StdVector.emplace_back_spec grow pool.m_runnables (runnable, args)
  rcases ThreadPoolWithContextsAndArgs.tryToPushFrom_spec locks
      (pool.m_runnables.emplace_back grow (runnable, args)).1 pool.m_queues 0 with
    ⟨k, q, hk, hlk, hbefore, heq⟩ | ⟨hall, heq⟩
  · have hklt : k < pool.m_queues.length := (List.getElem?_eq_some_iff.1 hk).1
    refine ⟨(pool.m_runnables.emplace_back grow (runnable, args)).1,
      { pool with
        m_runnables := (pool.m_runnables.emplace_back grow (runnable, args)).2
        m_queues := pool.m_queues.set k
          { q with m_runnables := q.m_runnables ++
              [(pool.m_runnables.emplace_back grow (runnable, args)).1] } },
      k, q, ?_, hderef, hsize, rfl, hQ ▸ hklt, hk, ?_, ?_, ?_, ?_⟩
    · simp only [ThreadPoolWithContextsAndArgs.addRunnable,
        ThreadPoolWithContextsAndArgs.tryToPushToOneQueue, heq]
      rfl
    · simp [hklt]
    · simp
    · intro j hj
      exact List.getElem?_set_ne (Ne.symm hj)
    · left
      refine ⟨by simpa using hlk, fun j hj => by simpa using hbefore j hj⟩
  · have hklt : pool.m_runnables.size % pool.m_threadNumber < pool.m_queues.length := by
      rw [hQ]
      exact Nat.mod_lt _ hN
    have hk : pool.m_queues[pool.m_runnables.size % pool.m_threadNumber]?
        = some (pool.m_queues[pool.m_runnables.size % pool.m_threadNumber]) :=
      List.getElem?_eq_getElem hklt
    refine ⟨(pool.m_runnables.emplace_back grow (runnable, args)).1,
      { pool with
        m_runnables := (pool.m_runnables.emplace_back grow (runnable, args)).2
        m_queues := pool.m_queues.set (pool.m_runnables.size % pool.m_threadNumber)
          { pool.m_queues[pool.m_runnables.size % pool.m_threadNumber] with
            m_runnables :=
              (pool.m_queues[pool.m_runnables.size % pool.m_threadNumber]).m_runnables
                ++ [(pool.m_runnables.emplace_back grow (runnable, args)).1] } },
      pool.m_runnables.size % pool.m_threadNumber,
      pool.m_queues[pool.m_runnables.size % pool.m_threadNumber],
      ?_, hderef, hsize, rfl, hQ ▸ hklt, hk, ?_, ?_, ?_, ?_⟩
    · simp only [ThreadPoolWithContextsAndArgs.addRunnable,
        ThreadPoolWithContextsAndArgs.tryToPushToOneQueue, heq, hsize, Nat.add_sub_cancel, hk]
      simp [RunnableQueue.push]
    · simp [hklt]
    · simp
    · intro j hj
      exact List.getElem?_set_ne (Ne.symm hj)
    · right
      refine ⟨fun j hj => by simpa using hall j (hQ ▸ hj), ?_⟩
      simp [hsize]

/-- Claim C6 on a fresh pool of two workers where only the mutex of queue 1 is
free: the pointer goes to queue 1. -/
theorem addRunnable_places_in_one_queue_witness :
    1 ≤ examplePool.m_threadNumber ∧ examplePool.m_queues.length = examplePool.m_threadNumber ∧
    ∃ (runnablePtr : Address) (pool' : ThreadPoolWithContextsAndArgs Int Int) (k : Nat)
      (q : RunnableQueue Address),
      examplePool.addRunnable doubling onlySecondFree exampleTask 42 = .ok (runnablePtr, pool') ∧
      pool'.m_runnables.deref runnablePtr = some (exampleTask, 42) ∧
      pool'.m_runnables.size = examplePool.m_runnables.size + 1 ∧
      pool'.m_threadNumber = examplePool.m_threadNumber ∧
      k < examplePool.m_threadNumber ∧
      examplePool.m_queues[k]? = some q ∧
      pool'.m_queues[k]? = some { q with m_runnables := q.m_runnables ++ [runnablePtr] } ∧
      pool'.m_queues.length = examplePool.m_queues.length ∧
      (∀ j, j ≠ k → pool'.m_queues[j]? = examplePool.m_queues[j]?) ∧
      ((onlySecondFree k = true ∧ ∀ j < k, onlySecondFree j = false) ∨
       ((∀ j < examplePool.m_threadNumber, onlySecondFree j = false) ∧
         k = (pool'.m_runnables.size - 1) % examplePool.m_threadNumber)) :=
  ⟨by decide, rfl,
   addRunnable_places_in_one_queue doubling onlySecondFree exampleTask 42 examplePool
     (by decide) rfl⟩

end Submission

/-! ## Lifecycle, progress and the remaining-time estimate -/

section Lifecycle

variable {T Args R : Type}

/-- One statement of `launch` keeps the flags consistent with the place reached. -/
theorem Execution.Consistent.step (now : Int) (args : Args) (e e' : Execution T Args R)
    (h : e.Consistent) (hs : Execution.step now args e = some e') : e'.Consistent := by
  obtain ⟨r, point, stamp⟩ := e
  cases point <;>
    simp only [Execution.step, Execution.Consistent] at h hs
  · split at hs
    · cases hs
    · cases hs
      simpa [Execution.Consistent, Runnable.recordStart, Runnable.isStarted,
        Runnable.isFinished] using h
  · cases hs
    simpa [Execution.Consistent, Runnable.storeStarted, Runnable.isStarted,
      Runnable.isFinished] using h.2
  · cases hs
    simpa [Execution.Consistent, Runnable.invoke, Runnable.isStarted,
      Runnable.isFinished] using h
  · cases hs
    simpa [Execution.Consistent, Runnable.recordEnd, Runnable.isStarted,
      Runnable.isFinished] using h
  · cases hs
    simpa [Execution.Consistent, Runnable.storeFinished, Runnable.isStarted,
      Runnable.isFinished] using ⟨h.1, h.2.2⟩
  · cases hs

/-- Every state reached from a fresh runnable is consistent. -/
theorem Execution.Reachable.consistent (m : Model T Args R) (e : Execution T Args R)
    (h : Execution.Reachable m e) : e.Consistent := by
  induction h with
  | start => exact ⟨rfl, rfl⟩
  | next now args e e' _ hs ih => exact Execution.Consistent.step now args e e' ih hs

/-- In a consistent state the finished flag implies the started flag and a
written end timestamp, and is set exactly at the place after `launch`. -/
theorem Execution.Consistent.finished (e : Execution T Args R) (h : e.Consistent) :
    (e.runnable.isFinished = true →
      e.runnable.isStarted = true ∧ e.endStamp = some e.runnable.m_endTime) ∧
    (e.runnable.isFinished = true ↔ e.point = LaunchPoint.returned) := by
  obtain ⟨r, point, stamp⟩ := e
  cases point <;> simp only [Execution.Consistent] at h <;> simp_all

/-- The statements of a whole `launch` lead from the fresh state to the state
after the call. -/
theorem Execution.Reachable.launched (m : Model T Args R) (tStart tEnd : Int) (args : Args) :
    Execution.Reachable m
      { runnable := Runnable.storeFinished (Runnable.recordEnd tEnd (Runnable.invoke args
          (Runnable.storeStarted (Runnable.recordStart tStart (Runnable.create m))))),
        point := LaunchPoint.returned, endStamp := some tEnd } := by
  have h0 : Execution.Reachable m (Execution.fresh m) := Execution.Reachable.start
  have h1 := Execution.Reachable.next tStart args _ _ h0 rfl
  have h2 := Execution.Reachable.next tStart args _ _ h1 rfl
  have h3 := Execution.Reachable.next tStart args _ _ h2 rfl
  have h4 := Execution.Reachable.next tEnd args _ _ h3 rfl
  exact Execution.Reachable.next tEnd args _ _ h4 rfl

/-- Claim C7, counterexample: a running task whose hook reports progress 1,
100001 ns after its start, gets the estimate 0, while e * (1/(p + eps) - 1) is
-1 there. -/
theorem remainingTimeEstimate_differs_from_claimed :
    (runningRunnable 1).isStarted = true ∧ (runningRunnable 1).isFinished = false ∧
    (runningRunnable 1).m_objectToRun.progression = some (Progression.ofValue 1) ∧
    (Progression.ofValue 1).toValue = 1 ∧
    (runningRunnable 1).getElapsedTime 1 100001 = 100001 ∧
    (runningRunnable 1).remainingTimeEstimate 100001 = some 0 ∧
    (100001 : ℚ) * (1 / (1 + Runnable.epsilon) - 1) = -1 ∧
    (runningRunnable 1).remainingTimeEstimate 100001
      ≠ some ((100001 : ℚ) * (1 / (1 + Runnable.epsilon) - 1)) := by
  have hest : (runningRunnable 1).remainingTimeEstimate 100001 = some 0 := by
    simp [Runnable.remainingTimeEstimate, getProgression, runningRunnable,
      Runnable.storeStarted, Runnable.recordStart, Runnable.create, Runnable.isStarted,
      Runnable.isFinished, Model.progression, progressModel, Progression.ofValue,
      ProgressionTemplated.construct, ProgressionTemplated.checked,
      ProgressionTemplated.toValue]
  have hval : (100001 : ℚ) * (1 / (1 + Runnable.epsilon) - 1) = -1 := by
    norm_num [Runnable.epsilon]
  refine ⟨rfl, rfl, rfl, rfl, by decide, hest, hval, ?_⟩
  rw [hest, hval]
  norm_num

/-- Claim C7, amended: for a started, unfinished runnable whose progress hook
reports the progress object `pr`, the elapsed time e in nanoseconds is
`now - m_startTime` and the estimate before the final conversion is
e * (1/(p + eps)) * (1 - p), with p the value of `pr` and eps = 1e-5. -/
theorem remainingTimeEstimate_running (now : Int) (r : Runnable T Args R) (pr : Progression)
    (hs : r.isStarted = true) (hf : r.isFinished = false)
    (hp : r.m_objectToRun.progression = some pr) :
    r.getElapsedTime 1 now = now - r.m_startTime ∧
    Runnable.epsilon = 1 / 100000 ∧
    r.remainingTimeEstimate now
      = some (((r.getElapsedTime 1 now : Int) : ℚ) * (1 / (pr.toValue + Runnable.epsilon))
          * (1 - pr.toValue)) := by
  refine ⟨?_, rfl, ?_⟩
  · simp [Runnable.getElapsedTime, Runnable.durationCast, hs, hf]
  · simp only [Runnable.remainingTimeEstimate, getProgression, hs, hf, hp]
    simp [mul_comm]

/-- Claim C7, amended, on the running example with progress 1/2 at 3 ns. -/
theorem remainingTimeEstimate_running_witness :
    (runningRunnable (1 / 2)).getElapsedTime 1 3 = 3 - (runningRunnable (1 / 2)).m_startTime ∧
    Runnable.epsilon = 1 / 100000 ∧
    (runningRunnable (1 / 2)).remainingTimeEstimate 3
      = some ((((runningRunnable (1 / 2)).getElapsedTime 1 3 : Int) : ℚ)
          * (1 / ((Progression.ofValue (1 / 2)).toValue + Runnable.epsilon))
          * (1 - (Progression.ofValue (1 / 2)).toValue)) :=
  remainingTimeEstimate_running 3 (runningRunnable (1 / 2)) (Progression.ofValue (1 / 2))
    rfl rfl rfl

/-- A progress object built through the constructor and the operators without
the policy firing has the bounds 0 and 1 and a value between them. -/
theorem Progression.Built.bounds (p : Progression) (h : Progression.Built p) :
    p.m_min = 0 ∧ p.m_max = 1 ∧ 0 ≤ p.toValue ∧ p.toValue ≤ 1 := by
  induction h with
  | construct value h =>
    simp only [ProgressionTemplated.construct, ProgressionTemplated.checked,
      ProgressionTemplated.validate, Bool.or_eq_false_iff, decide_eq_false_iff_not,
      not_lt, gt_iff_lt] at h
    exact ⟨rfl, rfl, h.1, h.2⟩
  | assign p value _ h ih =>
    simp only [ProgressionTemplated.assign, ProgressionTemplated.checked,
      ProgressionTemplated.validate, Bool.or_eq_false_iff, decide_eq_false_iff_not,
      not_lt, gt_iff_lt, ih.1, ih.2.1] at h
    exact ⟨ih.1, ih.2.1, h.1, h.2⟩
  | addAssign p value _ h ih =>
    simp only [ProgressionTemplated.addAssign, ProgressionTemplated.checked,
      ProgressionTemplated.validate, Bool.or_eq_false_iff, decide_eq_false_iff_not,
      not_lt, gt_iff_lt, ih.1, ih.2.1] at h
    exact ⟨ih.1, ih.2.1, h.1, h.2⟩
  | subAssign p value _ h ih =>
    simp only [ProgressionTemplated.subAssign, ProgressionTemplated.checked,
      ProgressionTemplated.validate, Bool.or_eq_false_iff, decide_eq_false_iff_not,
      not_lt, gt_iff_lt, ih.1, ih.2.1] at h
    exact ⟨ih.1, ih.2.1, h.1, h.2⟩
  | divAssign p value _ h ih =>
    simp only [ProgressionTemplated.divAssign, ProgressionTemplated.checked,
      ProgressionTemplated.validate, Bool.or_eq_false_iff, decide_eq_false_iff_not,
      not_lt, gt_iff_lt, ih.1, ih.2.1] at h
    exact ⟨ih.1, ih.2.1, h.1, h.2⟩
  | mulAssign p value _ h ih =>
    simp only [ProgressionTemplated.mulAssign, ProgressionTemplated.checked,
      ProgressionTemplated.validate, Bool.or_eq_false_iff, decide_eq_false_iff_not,
      not_lt, gt_iff_lt, ih.1, ih.2.1] at h
    exact ⟨ih.1, ih.2.1, h.1, h.2⟩

/-- The conversions of the literals 0 and 1 pass validation. -/
theorem Progression.ofValue_zero_one :
    Progression.Built (Progression.ofValue 0) ∧ Progression.Built (Progression.ofValue 1) ∧
    (Progression.ofValue 0).toValue = 0 ∧ (Progression.ofValue 1).toValue = 1 :=
  ⟨Progression.Built.construct 0 (by decide), Progression.Built.construct 1 (by decide),
   rfl, rfl⟩

/-- At `float`, a value that passes `validate()` between the bounds 0 and 1 is
NaN or a number of [0,1]. -/
theorem FloatProgression.validate_passed (v : FloatValue)
    (h : FloatProgression.validate
      { m_min := FloatValue.number 0, m_current := v, m_max := FloatValue.number 1 } = false) :
    v = FloatValue.notANumber ∨ v.inUnitInterval = true := by
  cases v with
  | number q =>
    right
    simp only [FloatProgression.validate, FloatValue.gt, Bool.or_eq_false_iff,
      decide_eq_false_iff_not, not_lt, gt_iff_lt] at h
    simp [FloatValue.inUnitInterval, h.1, h.2]
  | positiveInfinity => simp [FloatProgression.validate, FloatValue.gt] at h
  | negativeInfinity => simp [FloatProgression.validate, FloatValue.gt] at h
  | notANumber => exact Or.inl rfl

/-- A `float` progress object built without the policy firing has the bounds
0 and 1 and a value that is NaN or a number of [0,1]. -/
theorem FloatProgression.Built.float_bounds (p : FloatProgression)
    (h : FloatProgression.Built p) :
    p.m_min = FloatValue.number 0 ∧ p.m_max = FloatValue.number 1 ∧
    (p.m_current = FloatValue.notANumber ∨ p.m_current.inUnitInterval = true) := by
  induction h with
  | construct value h => exact ⟨rfl, rfl, FloatProgression.validate_passed value h⟩
  | store p result _ h ih =>
    refine ⟨ih.1, ih.2.1, FloatProgression.validate_passed result ?_⟩
    have hp : ({ p with m_current := result } : FloatProgression)
        = { m_min := FloatValue.number 0, m_current := result, m_max := FloatValue.number 1 } := by
      rw [← ih.1, ← ih.2.1]
    rw [← hp]
    exact h

/-- Claim C8, the code at the failing input: the constructor of `Progression`
given NaN does not fire the policy, since both comparisons of `validate()` are
false; a running task whose hook hands out that object makes `getProgression`
return a non-empty result whose value is not in [0,1]. -/
theorem getProgression_result_not_a_number :
    (FloatProgression.construct FloatValue.notANumber).fired = false ∧
    FloatProgression.Built (FloatProgression.construct FloatValue.notANumber).object ∧
    (runningRunnable (1 / 2)).isStarted = true ∧
    (runningRunnable (1 / 2)).isFinished = false ∧
    getProgressionFloat (runningRunnable (1 / 2))
        (some (FloatProgression.construct FloatValue.notANumber).object)
      = some (FloatProgression.construct FloatValue.notANumber).object ∧
    (FloatProgression.construct FloatValue.notANumber).object.m_current
      = FloatValue.notANumber ∧
    FloatValue.inUnitInterval FloatValue.notANumber = false :=
  ⟨rfl, FloatProgression.Built.construct FloatValue.notANumber rfl, rfl, rfl, rfl, rfl, rfl⟩

/-- What `getProgression` returns. For every runnable in a state reached from
construction through the statements of `launch`, it is 0 when the runnable is
not started, 1 when it is finished, and otherwise the result of the task's
progress hook on the stored callable, or empty when the task has no hook; and
when the hook hands out progress objects that passed validation, the value of
every non-empty result is a number of [0,1] unless it is NaN, the one value
outside [0,1] that `validate()` lets through. -/
theorem getProgression_by_state (m : Model T Args R) (e : Execution T Args R)
    (hReach : Execution.Reachable m e) (objectProgression : Option FloatProgression)
    (hHook : ∀ pr, objectProgression = some pr → FloatProgression.Built pr) :
    (e.runnable.isStarted = false →
      getProgression e.runnable = some (Progression.ofValue 0) ∧
      getProgressionFloat e.runnable objectProgression
        = some (FloatProgression.construct (FloatValue.number 0)).object) ∧
    (e.runnable.isFinished = true →
      getProgression e.runnable = some (Progression.ofValue 1) ∧
      getProgressionFloat e.runnable objectProgression
        = some (FloatProgression.construct (FloatValue.number 1)).object) ∧
    (e.runnable.isStarted = true → e.runnable.isFinished = false →
      (getProgression e.runnable =
        match e.runnable.m_objectToRun.progressionHook with
        | some hook => hook e.runnable.m_objectToRun.m_data
        | none => none) ∧
      getProgressionFloat e.runnable objectProgression = objectProgression) ∧
    (Progression.ofValue 0).toValue = 0 ∧ (Progression.ofValue 1).toValue = 1 ∧
    (FloatProgression.construct (FloatValue.number 0)).object.m_current = FloatValue.number 0 ∧
    (FloatProgression.construct (FloatValue.number 1)).object.m_current = FloatValue.number 1 ∧
    (∀ pr, getProgressionFloat e.runnable objectProgression = some pr →
      pr.m_current = FloatValue.notANumber ∨ pr.m_current.inUnitInterval = true) := by
  have hfin := (Execution.Consistent.finished e (Execution.Reachable.consistent m e hReach)).1
  refine ⟨?_, ?_, ?_, rfl, rfl, rfl, rfl, ?_⟩
  · intro hs
    simp [getProgression, getProgressionFloat, hs]
  · intro hf
    simp [getProgression, getProgressionFloat, (hfin hf).1, hf]
  · intro hs hf
    simp [getProgression, getProgressionFloat, hs, hf, Model.progression]
  · intro pr hpr
    have hbuilt : FloatProgression.Built pr := by
      cases hs : e.runnable.isStarted with
      | false =>
        simp only [getProgressionFloat, hs, Bool.not_false, if_true, Option.some.injEq] at hpr
        rw [← hpr]
        exact FloatProgression.Built.construct (FloatValue.number 0) (by decide)
      | true =>
        cases hf : e.runnable.isFinished with
        | true =>
          simp only [getProgressionFloat, hs, hf, Bool.not_true, Bool.false_eq_true, if_false,
            if_true, Option.some.injEq] at hpr
          rw [← hpr]
          exact FloatProgression.Built.construct (FloatValue.number 1) (by decide)
        | false =>
          simp only [getProgressionFloat, hs, hf, Bool.not_true, Bool.false_eq_true,
            if_false] at hpr
          exact hHook pr hpr
    exact (FloatProgression.Built.float_bounds pr hbuilt).2.2

/-- Claim C9: a freshly constructed runnable has both flags false; in every
state reached from it through the statements of `launch`, finished implies
started and that the end timestamp holds the value written for it, and
`isFinished()` is true exactly in the state after `launch`; and `launch` on a
fresh runnable does complete, in that state. -/
theorem lifecycle_invariant (m : Model T Args R) :
    (Runnable.create m).isStarted = false ∧ (Runnable.create m).isFinished = false ∧
    (∀ e : Execution T Args R, Execution.Reachable m e →
      (e.runnable.isFinished = true →
        e.runnable.isStarted = true ∧ e.endStamp = some e.runnable.m_endTime) ∧
      (e.runnable.isFinished = true ↔ e.point = LaunchPoint.returned)) ∧
    (∀ (tStart tEnd : Int) (args : Args), ∃ r' : Runnable T Args R,
      (Runnable.create m).launch tStart tEnd args = .ok r' ∧
      Execution.Reachable m
        { runnable := r', point := LaunchPoint.returned, endStamp := some tEnd } ∧
      r'.isFinished = true ∧ r'.isStarted = true ∧ r'.m_endTime = tEnd) := by
  refine ⟨rfl, rfl, ?_, ?_⟩
  · intro e he
    exact Execution.Consistent.finished e (Execution.Reachable.consistent m e he)
  · intro tStart tEnd args
    exact ⟨_, Runnable.launch_of_not_started tStart tEnd args (Runnable.create m) rfl,
      Execution.Reachable.launched m tStart tEnd args, rfl, rfl, rfl⟩

/-- Claim C9 on the example task: in the state after the task returned and
before the end timestamp is written, `isFinished()` is still false. -/
theorem lifecycle_invariant_witness :
    ((Runnable.invoke ((42 : Int), (42 : Int)) (Runnable.storeStarted
        (Runnable.recordStart 10 (Runnable.create sumModel)))).isFinished = true ↔
      LaunchPoint.taskReturned = LaunchPoint.returned) ∧
    ∃ r' : Runnable Unit (Int × Int) Int,
      (Runnable.create sumModel).launch 10 20 (42, 42) = .ok r' ∧
      Execution.Reachable sumModel
        { runnable := r', point := LaunchPoint.returned, endStamp := some 20 } ∧
      r'.isFinished = true ∧ r'.isStarted = true ∧ r'.m_endTime = 20 :=
  ⟨((lifecycle_invariant sumModel).2.2.1
      { runnable := Runnable.invoke ((42 : Int), (42 : Int)) (Runnable.storeStarted
          (Runnable.recordStart 10 (Runnable.create sumModel))),
        point := LaunchPoint.taskReturned, endStamp := none }
      (Execution.Reachable.next 10 (42, 42) _ _
        (Execution.Reachable.next 10 (42, 42) _ _
          (Execution.Reachable.next 10 (42, 42) _ _ Execution.Reachable.start rfl) rfl)
        rfl)).2,
   (lifecycle_invariant sumModel).2.2.2 10 20 (42, 42)⟩

end Lifecycle

/-! ## Stability of the backing storage -/

section Storage

variable {C A : Type}

/-- An `emplace_back` on a vector without spare capacity moves the elements:
no address into the buffer owned before designates an element afterwards. -/
theorem StdVector.emplace_back_full {β : Type u} (grow : Nat → Nat) (v : StdVector β) (x : β)
    (p : Address) (hFull : v.capacity ≤ v.size) (hp : p.buffer = v.buffer) :
    (v.emplace_back grow x).2.deref p = none := by
  have hnot : ¬ v.size < v.capacity := Nat.not_lt.2 hFull
  simp [StdVector.emplace_back, StdVector.deref, hnot, hp]

/-- An `emplace_back` on a vector with spare capacity leaves every element
where it was. -/
theorem StdVector.emplace_back_spare {β : Type u} (grow : Nat → Nat) (v : StdVector β) (x y : β)
    (p : Address) (hSpare : v.size < v.capacity) (hp : v.deref p = some y) :
    (v.emplace_back grow x).2.deref p = some y := by
  unfold StdVector.deref at hp ⊢
  simp only [StdVector.emplace_back, hSpare, if_true]
  split at hp
  · rename_i hb
    have hlt : p.index < v.elems.length := (List.getElem?_eq_some_iff.1 hp).1
    simp [hb, List.getElem?_append_left hlt, hp]
  · cases hp

/-- The buffer identity never decreases under `emplace_back`. -/
theorem StdVector.buffer_le_emplaceAll {β : Type u} (grow : Nat → Nat) (xs : List β)
    (v : StdVector β) : v.buffer ≤ (v.emplaceAll grow xs).buffer := by
  induction xs generalizing v with
  | nil => exact Nat.le_refl _
  | cons x xs ih =>
    have h := ih (v.emplace_back grow x).2
    have hstep : v.buffer ≤ (v.emplace_back grow x).2.buffer := by
      unfold StdVector.emplace_back
      split <;> simp
    exact Nat.le_trans hstep h

/-- Whatever the growth rule, more insertions than the spare capacity move
the elements: an address into the buffer owned before designates nothing. -/
theorem StdVector.emplaceAll_beyond_capacity {β : Type u} (grow : Nat → Nat) (xs : List β)
    (v : StdVector β) (p : Address) (hMore : v.capacity - v.size < xs.length)
    (hp : p.buffer = v.buffer) : (v.emplaceAll grow xs).deref p = none := by
  have hlt : v.buffer < (v.emplaceAll grow xs).buffer := by
    induction xs generalizing v with
    | nil => simp at hMore
    | cons x xs ih =>
      by_cases hSpare : v.size < v.capacity
      · have hstep : (v.emplace_back grow x).2
            = { v with elems := v.elems ++ [x] } := by
          simp [StdVector.emplace_back, hSpare]
        have h := ih (v.emplace_back grow x).2 (by
          rw [hstep]
          simp only [StdVector.size, List.length_append, List.length_singleton,
            List.length_cons] at hMore hSpare ⊢
          omega) (by rw [hstep]; exact hp)
        rw [hstep] at h
        simpa [StdVector.emplaceAll, StdVector.emplace_back, hSpare] using h
      · have hstep : (v.emplace_back grow x).2.buffer = v.buffer + 1 := by
          simp [StdVector.emplace_back, hSpare]
        have h := StdVector.buffer_le_emplaceAll grow xs (v.emplace_back grow x).2
        have h2 : (v.emplaceAll grow (x :: xs)) = (v.emplace_back grow x).2.emplaceAll grow xs :=
          rfl
        rw [h2]
        omega
  have hne : ¬ p.buffer = (v.emplaceAll grow xs).buffer := by omega
  simp [StdVector.deref, hne]

/-- Claim C10, the code at the failing input: on a fresh pool of one worker
whose vector doubles its capacity, the handle returned by the first
`addRunnable` designates the stored task after that call and designates
nothing after the second `addRunnable`, while the queue still holds it. -/
theorem addRunnable_invalidates_earlier_handle :
    ∃ (h0 h1 : Address) (pool1 pool2 : ThreadPoolWithContextsAndArgs Int Int),
      singlePool.addRunnable doubling allFree exampleTask 1 = .ok (h0, pool1) ∧
      pool1.addRunnable doubling allFree exampleTask 2 = .ok (h1, pool2) ∧
      (pool1.m_runnables.deref h0).isSome = true ∧
      (pool2.m_runnables.deref h0).isNone = true ∧
      (pool2.m_runnables.deref h1).isSome = true ∧
      pool2.m_queues = [{ m_runnables := [h0, h1], m_done := false }] :=
  ⟨_, _, _, _, rfl, rfl, rfl, rfl, rfl, rfl⟩

end Storage

/-! ## The default number of workers -/

section DefaultSize

/-- For a reported hardware concurrency of at least 1 (and representable in
`unsigned int`) the default number of workers is max(h - 1, 1). -/
theorem ThreadPoolWithContextsAndArgs.defaultThreadNumber_of_pos (h : Nat) (hPos : 1 ≤ h)
    (hFits : h < 2 ^ unsignedIntBits) :
    ThreadPoolWithContextsAndArgs.defaultThreadNumber h = max (h - 1) 1 := by
  simp only [unsignedIntBits, sizeBits, ThreadPoolWithContextsAndArgs.defaultThreadNumber]
    at hFits ⊢
  have h1 : (h + 2 ^ 32 - 1) % 2 ^ 32 = h - 1 := by omega
  have h2 : (h - 1) % 2 ^ 64 = h - 1 := by omega
  rw [h1, h2]

/-- Claim C11, the code at the failing input: when the platform reports the
hardware concurrency 0, the `unsigned int` subtraction wraps and the default
constructor asks for 4294967295 workers, where max(0 - 1, 1) over the integers
is 1; from 1 on the two agree. -/
theorem defaultThreadNumber_wraps_at_zero :
    ThreadPoolWithContextsAndArgs.defaultThreadNumber 0 = 4294967295 ∧
    (ThreadPoolWithContextsAndArgs.createDefault 0 :
      ThreadPoolWithContextsAndArgs Unit Unit).m_threadNumber = 4294967295 ∧
    max ((0 : Int) - 1) 1 = 1 ∧
    ThreadPoolWithContextsAndArgs.defaultThreadNumber 1 = 1 ∧
    ThreadPoolWithContextsAndArgs.defaultThreadNumber 2 = 1 ∧
    ThreadPoolWithContextsAndArgs.defaultThreadNumber 8 = 7 := by
  refine ⟨by decide, ?_, by decide, by decide, by decide, by decide⟩
  show ThreadPoolWithContextsAndArgs.defaultThreadNumber 0 = 4294967295
  decide

end DefaultSize

/-! ## The progress value -/

section ProgressValue

/-- The policy fires on an object with the bounds 0 and 1 exactly when its
value is outside [0,1]. -/
theorem ProgressionTemplated.checked_fired_iff (p : ProgressionTemplated) (hMin : p.m_min = 0)
    (hMax : p.m_max = 1) :
    p.checked.fired = true ↔ (p.m_current < 0 ∨ 1 < p.m_current) := by
  simp [ProgressionTemplated.checked, ProgressionTemplated.validate, hMin, hMax]

/-- Claim C13: over exact values, the constructor and each of the operators
`=`, `+=`, `-=`, `*=`, `/=` (the last with a non-zero divisor) on an object
with the bounds 0 and 1 invoke the failure policy if and only if the
resulting value is outside [0,1], store exactly the resulting value, and keep
the bounds 0 and 1; hence every object obtained through them without the
policy firing has 0 <= current <= 1. -/
theorem progression_validated_writes :
    (∀ v : ℚ, ((ProgressionTemplated.construct v).fired = true ↔ (v < 0 ∨ 1 < v)) ∧
      (ProgressionTemplated.construct v).object
        = { m_min := 0, m_current := v, m_max := 1 }) ∧
    (∀ (p : ProgressionTemplated) (v : ℚ), p.m_min = 0 → p.m_max = 1 →
      (((p.assign v).fired = true ↔ (v < 0 ∨ 1 < v)) ∧
        (p.assign v).object = { m_min := 0, m_current := v, m_max := 1 }) ∧
      (((p.addAssign v).fired = true ↔ (p.m_current + v < 0 ∨ 1 < p.m_current + v)) ∧
        (p.addAssign v).object = { m_min := 0, m_current := p.m_current + v, m_max := 1 }) ∧
      (((p.subAssign v).fired = true ↔ (p.m_current - v < 0 ∨ 1 < p.m_current - v)) ∧
        (p.subAssign v).object = { m_min := 0, m_current := p.m_current - v, m_max := 1 }) ∧
      (((p.mulAssign v).fired = true ↔ (p.m_current * v < 0 ∨ 1 < p.m_current * v)) ∧
        (p.mulAssign v).object = { m_min := 0, m_current := p.m_current * v, m_max := 1 }) ∧
      (v ≠ 0 →
        ((p.divAssign v).fired = true ↔ (p.m_current / v < 0 ∨ 1 < p.m_current / v)) ∧
        (p.divAssign v).object = { m_min := 0, m_current := p.m_current / v, m_max := 1 })) ∧
    (∀ p : Progression, Progression.Built p →
      p.m_min = 0 ∧ p.m_max = 1 ∧ 0 ≤ p.toValue ∧ p.toValue ≤ 1) := by
  refine ⟨?_, ?_, ?_⟩
  · intro v
    exact ⟨ProgressionTemplated.checked_fired_iff _ rfl rfl, rfl⟩
  · intro p v hMin hMax
    refine ⟨⟨?_, ?_⟩, ⟨?_, ?_⟩, ⟨?_, ?_⟩, ⟨?_, ?_⟩, fun _ => ⟨?_, ?_⟩⟩
    · exact ProgressionTemplated.checked_fired_iff _ hMin hMax
    · simp [ProgressionTemplated.assign, ProgressionTemplated.checked, hMin, hMax]
    · exact ProgressionTemplated.checked_fired_iff _ hMin hMax
    · simp [ProgressionTemplated.addAssign, ProgressionTemplated.checked, hMin, hMax]
    · exact ProgressionTemplated.checked_fired_iff _ hMin hMax
    · simp [ProgressionTemplated.subAssign, ProgressionTemplated.checked, hMin, hMax]
    · exact ProgressionTemplated.checked_fired_iff _ hMin hMax
    · simp [ProgressionTemplated.mulAssign, ProgressionTemplated.checked, hMin, hMax]
    · exact ProgressionTemplated.checked_fired_iff _ hMin hMax
    · simp [ProgressionTemplated.divAssign, ProgressionTemplated.checked, hMin, hMax]
  · intro p hp
    exact Progression.Built.bounds p hp

/-- Claim C13 on the object built from 1/2: adding 1/4 stores 3/4 without the
policy firing, adding 3/4 stores 5/4 and fires it. -/
theorem progression_validated_writes_witness :
    (((Progression.ofValue (1 / 2)).addAssign (1 / 4)).fired = true ↔
      ((Progression.ofValue (1 / 2)).m_current + 1 / 4 < 0 ∨
        1 < (Progression.ofValue (1 / 2)).m_current + 1 / 4)) ∧
    ((Progression.ofValue (1 / 2)).addAssign (1 / 4)).object
      = { m_min := 0, m_current := (Progression.ofValue (1 / 2)).m_current + 1 / 4,
          m_max := 1 } ∧
    ((Progression.ofValue (1 / 2)).addAssign (3 / 4)).fired = true :=
  ⟨(progression_validated_writes.2.1 (Progression.ofValue (1 / 2)) (1 / 4) rfl rfl).2.1.1,
   (progression_validated_writes.2.1 (Progression.ofValue (1 / 2)) (1 / 4) rfl rfl).2.1.2,
   ((progression_validated_writes.2.1 (Progression.ofValue (1 / 2)) (3 / 4) rfl rfl).2.1.1).2
     (Or.inr (by
       norm_num [Progression.ofValue, ProgressionTemplated.construct,
         ProgressionTemplated.checked]))⟩

end ProgressValue

/-! ## The worker's search for work -/

section Search

/-- A call of `pop` waits exactly when it has the lock of a queue that is empty
and not done. -/
theorem RunnableQueue.pop_waits_iff {α : Type} (tryToLock lockFree : Bool)
    (q : RunnableQueue α) :
    q.pop tryToLock lockFree = PopResult.waits ↔
      (tryToLock = false ∨ lockFree = true) ∧ q.m_done = false ∧ q.m_runnables = [] := by
  obtain ⟨l, done⟩ := q
  cases tryToLock <;> cases lockFree <;> cases done <;> cases l <;>
    simp [RunnableQueue.pop, RunnableQueue.waitCondition]

/-- A scan that suspends the worker does so on a queue that is empty, not done
and whose mutex was free. -/
theorem ThreadPoolWithContextsAndArgs.tryToPopFrom_waits (locks : Nat → Bool)
    (queues : List (RunnableQueue Address)) (i k : Nat)
    (h : ThreadPoolWithContextsAndArgs.tryToPopFrom locks i queues
      = ThreadPoolWithContextsAndArgs.FetchResult.waits k) :
    ∃ (j : Nat) (qk : RunnableQueue Address), k = i + j ∧ queues[j]? = some qk ∧
      locks k = true ∧ qk.m_done = false ∧ qk.m_runnables = [] := by
  induction queues generalizing i with
  | nil => simp [ThreadPoolWithContextsAndArgs.tryToPopFrom] at h
  | cons q qs ih =>
    simp only [ThreadPoolWithContextsAndArgs.tryToPopFrom] at h
    cases hpop : q.pop true (locks i) with
    | waits =>
      rw [hpop] at h
      simp only [ThreadPoolWithContextsAndArgs.FetchResult.waits.injEq] at h
      have hw := (RunnableQueue.pop_waits_iff true (locks i) q).1 hpop
      refine ⟨0, q, by omega, by simp, ?_, hw.2.1, hw.2.2⟩
      rcases hw.1 with hc | hc
      · cases hc
      · rw [← h]
        exact hc
    | returned item q' =>
      rw [hpop] at h
      cases item with
      | some x => simp at h
      | none =>
        simp only at h
        cases hrest : ThreadPoolWithContextsAndArgs.tryToPopFrom locks (i + 1) qs with
        | returned item' qs' =>
          rw [hrest] at h
          simp at h
        | waits k' =>
          rw [hrest] at h
          simp only [ThreadPoolWithContextsAndArgs.FetchResult.waits.injEq] at h
          obtain ⟨j, qk, hk, hq, hl, hd, he⟩ := ih (i + 1) (h ▸ hrest)
          exact ⟨j + 1, qk, by omega, by simpa using hq, hl, hd, he⟩

/-- A scan over queues none of which is empty, not done and free to lock
returns. -/
theorem ThreadPoolWithContextsAndArgs.tryToPopFrom_returns (locks : Nat → Bool)
    (queues : List (RunnableQueue Address)) (i : Nat)
    (h : ∀ (j : Nat) (qk : RunnableQueue Address), queues[j]? = some qk →
      locks (i + j) = true → qk.m_done = true ∨ qk.m_runnables ≠ []) :
    ∃ (item : Option Address) (queues' : List (RunnableQueue Address)),
      ThreadPoolWithContextsAndArgs.tryToPopFrom locks i queues
        = ThreadPoolWithContextsAndArgs.FetchResult.returned item queues' := by
  cases hres : ThreadPoolWithContextsAndArgs.tryToPopFrom locks i queues with
  | returned item queues' => exact ⟨item, queues', rfl⟩
  | waits k =>
    exfalso
    obtain ⟨j, qk, hk, hq, hl, hd, he⟩ :=
      ThreadPoolWithContextsAndArgs.tryToPopFrom_waits locks queues i k hres
    rcases h j qk hq (hk ▸ hl) with h1 | h1
    · rw [hd] at h1
      cases h1
    · exact h1 he

/-- Claim C14, the code at the failing inputs: a `pop` with `std::try_to_lock`
that obtains the mutex of an empty queue that is not done waits on the
condition. In a fresh pool of two workers with every mutex free, the scan of
the worker of queue 1, and so its whole search for work, suspends it on the
condition of queue 0, not in the blocking `pop` on its own queue; and it is
suspended there even when its own queue holds a pointer, which stays in that
queue. -/
theorem tryLock_pop_waits_on_idle_queue :
    RunnableQueue.pop true true (RunnableQueue.empty : RunnableQueue Address)
      = PopResult.waits ∧
    examplePool.m_queues = [RunnableQueue.empty, RunnableQueue.empty] ∧
    ThreadPoolWithContextsAndArgs.tryToPopFromOneQueue allFree examplePool.m_queues
      = ThreadPoolWithContextsAndArgs.FetchResult.waits 0 ∧
    ThreadPoolWithContextsAndArgs.getRunnableAndArgs 1 allFree examplePool.m_queues
      = ThreadPoolWithContextsAndArgs.FetchResult.waits 0 ∧
    ThreadPoolWithContextsAndArgs.getRunnableAndArgs 1 allFree
        [RunnableQueue.empty, { m_runnables := [{ buffer := 1, index := 0 }], m_done := false }]
      = ThreadPoolWithContextsAndArgs.FetchResult.waits 0 := by
  decide

/-- Where the search for work can wait. A `pop` with `std::try_to_lock` returns
`nullptr` at once when the mutex is taken, and waits on the queue's condition
exactly when it obtains the mutex of a queue that is empty and not done. The
scan over all queues returns whenever no queue is in that state, a scan that
suspends the worker does so on a queue in that state, and a search for work
that suspends the worker does so in the blocking `pop` on its own queue or on
a queue in that state. -/
theorem tryLock_pop_waits_exactly_on_idle_queue (lockFree : Bool) (q : RunnableQueue Address)
    (own : Nat) (locks : Nat → Bool) (queues : List (RunnableQueue Address)) :
    (lockFree = false → q.pop true lockFree = PopResult.returned none q) ∧
    (q.pop true lockFree = PopResult.waits ↔
      lockFree = true ∧ q.m_done = false ∧ q.m_runnables = []) ∧
    ((∀ (k : Nat) (qk : RunnableQueue Address), queues[k]? = some qk → locks k = true →
        qk.m_done = true ∨ qk.m_runnables ≠ []) →
      ∃ (item : Option Address) (queues' : List (RunnableQueue Address)),
        ThreadPoolWithContextsAndArgs.tryToPopFromOneQueue locks queues
          = ThreadPoolWithContextsAndArgs.FetchResult.returned item queues') ∧
    (∀ k : Nat, ThreadPoolWithContextsAndArgs.tryToPopFromOneQueue locks queues
        = ThreadPoolWithContextsAndArgs.FetchResult.waits k →
      ∃ qk : RunnableQueue Address, queues[k]? = some qk ∧ locks k = true ∧
        qk.m_done = false ∧ qk.m_runnables = []) ∧
    (∀ k : Nat, ThreadPoolWithContextsAndArgs.getRunnableAndArgs own locks queues
        = ThreadPoolWithContextsAndArgs.FetchResult.waits k →
      k = own ∨ ∃ qk : RunnableQueue Address, queues[k]? = some qk ∧ locks k = true ∧
        qk.m_done = false ∧ qk.m_runnables = []) := by
  have hscan : ∀ k : Nat, ThreadPoolWithContextsAndArgs.tryToPopFromOneQueue locks queues
        = ThreadPoolWithContextsAndArgs.FetchResult.waits k →
      ∃ qk : RunnableQueue Address, queues[k]? = some qk ∧ locks k = true ∧
        qk.m_done = false ∧ qk.m_runnables = [] := by
    intro k hk
    obtain ⟨j, qk, hkj, hq, hl, hd, he⟩ :=
      ThreadPoolWithContextsAndArgs.tryToPopFrom_waits locks queues 0 k hk
    have hjk : j = k := by omega
    subst hjk
    exact ⟨qk, hq, hl, hd, he⟩
  refine ⟨?_, ?_, ?_, hscan, ?_⟩
  · intro hl
    simp [RunnableQueue.pop, hl]
  · rw [RunnableQueue.pop_waits_iff]
    simp
  · intro h
    exact ThreadPoolWithContextsAndArgs.tryToPopFrom_returns locks queues 0
      (fun j qk hq hl => h j qk hq (by simpa using hl))
  · intro k hk
    simp only [ThreadPoolWithContextsAndArgs.getRunnableAndArgs] at hk
    cases hres : ThreadPoolWithContextsAndArgs.tryToPopFromOneQueue locks queues with
    | waits k' =>
      rw [hres] at hk
      simp only [ThreadPoolWithContextsAndArgs.FetchResult.waits.injEq] at hk
      exact Or.inr (hscan k (hk ▸ hres))
    | returned item queues' =>
      rw [hres] at hk
      cases item with
      | some x => simp at hk
      | none =>
        simp only at hk
        cases hown : queues'[own]? with
        | none =>
          rw [hown] at hk
          simp at hk
        | some currentQueue =>
          rw [hown] at hk
          simp only at hk
          cases hpop : currentQueue.pop false true with
          | returned item' q' =>
            rw [hpop] at hk
            simp at hk
          | waits =>
            rw [hpop] at hk
            simp only [ThreadPoolWithContextsAndArgs.FetchResult.waits.injEq] at hk
            exact Or.inl hk.symm

end Search

/-! ## No runnable is launched twice -/

section Dispatch

variable {C A : Type}

/-- Replacing queue `k` changes the queued pointers only in the stretch that
belongs to that queue. -/
theorem allQueued_set (queues : List (RunnableQueue Address)) (k : Nat)
    (q : RunnableQueue Address) (hq : queues[k]? = some q) :
    ∃ pre post : List Address, allQueued queues = pre ++ q.m_runnables ++ post ∧
      ∀ q2 : RunnableQueue Address,
        allQueued (queues.set k q2) = pre ++ q2.m_runnables ++ post := by
  induction queues generalizing k with
  | nil => simp at hq
  | cons q0 qs ih =>
    cases k with
    | zero =>
      have h0 : q0 = q := by simpa using hq
      subst h0
      exact ⟨[], allQueued qs, by simp [allQueued], fun q2 => by simp [allQueued]⟩
    | succ k =>
      obtain ⟨pre, post, h1, h2⟩ := ih k (by simpa using hq)
      refine ⟨q0.m_runnables ++ pre, post, ?_, fun q2 => ?_⟩
      · simp [allQueued, h1]
      · simp [allQueued, h2 q2]

/-- A queue that gains one pointer at its back adds that pointer to the queued
pointers, and a queue that loses it removes it. -/
theorem allQueued_set_perm (queues : List (RunnableQueue Address)) (k : Nat)
    (q q2 : RunnableQueue Address) (ptr : Address) (hq : queues[k]? = some q)
    (h2 : q2.m_runnables = q.m_runnables ++ [ptr]) :
    (allQueued (queues.set k q2)).Perm (ptr :: allQueued queues) := by
  obtain ⟨pre, post, h1, hset⟩ := allQueued_set queues k q hq
  rw [hset q2, h1, h2]
  have h := @List.perm_middle _ ptr (pre ++ q.m_runnables) post
  simpa [List.append_assoc] using h

/-- The queues of a pool as constructed hold no pointer. -/
theorem allQueued_replicate (n : Nat) :
    allQueued (List.replicate n (RunnableQueue.empty : RunnableQueue Address)) = [] := by
  induction n with
  | zero => rfl
  | succ n ih =>
    rw [List.replicate_succ]
    simp only [allQueued, ih]
    rfl

/-- A `pop` that returns a pointer took it from the back of the queue. -/
theorem RunnableQueue.pop_some {α : Type} (tryToLock lockFree : Bool) (q q' : RunnableQueue α)
    (x : α) (h : q.pop tryToLock lockFree = PopResult.returned (some x) q') :
    q.m_runnables = q'.m_runnables ++ [x] ∧ q'.m_done = q.m_done := by
  unfold RunnableQueue.pop at h
  split at h
  · simp at h
  · split at h
    · simp at h
    · split at h
      · simp at h
      · simp only [PopResult.returned.injEq] at h
        obtain ⟨hlast, hq'⟩ := h
        rw [← hq']
        exact ⟨(List.dropLast_append_getLast? x (by simp [hlast])).symm, rfl⟩

/-- The address `emplace_back` returns has the old size as its position. -/
theorem StdVector.emplace_back_index {β : Type u} (grow : Nat → Nat) (v : StdVector β) (x : β) :
    (v.emplace_back grow x).1.index = v.size := by
  unfold StdVector.emplace_back
  split <;> rfl

/-- A call of `addRunnable` that returns has stored the work item and appended
the pointer to it to one queue. -/
theorem ThreadPoolWithContextsAndArgs.addRunnable_ok (grow : Nat → Nat) (locks : Nat → Bool)
    (runnable : AnyRunnable (C × A)) (args : A) (pool pool' : ThreadPoolWithContextsAndArgs C A)
    (ptr : Address) (h : pool.addRunnable grow locks runnable args = .ok (ptr, pool')) :
    ptr = (pool.m_runnables.emplace_back grow (runnable, args)).1 ∧
    pool'.m_runnables = (pool.m_runnables.emplace_back grow (runnable, args)).2 ∧
    ∃ (k : Nat) (q q2 : RunnableQueue Address), pool.m_queues[k]? = some q ∧
      q2.m_runnables = q.m_runnables ++ [ptr] ∧ pool'.m_queues = pool.m_queues.set k q2 := by
  unfold ThreadPoolWithContextsAndArgs.addRunnable at h
  simp only [ThreadPoolWithContextsAndArgs.tryToPushToOneQueue] at h
  rcases ThreadPoolWithContextsAndArgs.tryToPushFrom_spec locks
      (pool.m_runnables.emplace_back grow (runnable, args)).1 pool.m_queues 0 with
    ⟨k, q, hk, -, -, heq⟩ | ⟨-, heq⟩
  · rw [heq] at h
    simp only [if_true, Except.ok.injEq, Prod.mk.injEq] at h
    obtain ⟨hptr, hpool⟩ := h
    subst hptr
    subst hpool
    exact ⟨rfl, rfl, k, q, _, hk, rfl, rfl⟩
  · rw [heq] at h
    simp only [Bool.false_eq_true, if_false] at h
    split at h
    · rename_i q hk
      simp only [Except.ok.injEq, Prod.mk.injEq] at h
      obtain ⟨hptr, hpool⟩ := h
      subst hptr
      subst hpool
      exact ⟨rfl, rfl, _, q, _, hk, by simp [RunnableQueue.push], rfl⟩
    · cases h

/-- A queue that loses the pointer at its back removes that pointer from the
queued pointers. -/
theorem allQueued_set_perm_pop (queues : List (RunnableQueue Address)) (k : Nat)
    (q q' : RunnableQueue Address) (ptr : Address) (hq : queues[k]? = some q)
    (hback : q.m_runnables = q'.m_runnables ++ [ptr]) :
    (allQueued queues).Perm (ptr :: allQueued (queues.set k q')) := by
  obtain ⟨pre, post, h1, hset⟩ := allQueued_set queues k q hq
  rw [hset q', h1, hback]
  have h := @List.perm_middle _ ptr (pre ++ q'.m_runnables) post
  simpa [List.append_assoc] using h

/-- A pool as constructed satisfies the bookkeeping facts. -/
theorem Dispatcher.Sound.atStart (n : Nat) : (Dispatcher.init n : Dispatcher C A).Sound := by
  have hq : allQueued (Dispatcher.init n : Dispatcher C A).pool.m_queues = [] :=
    allQueued_replicate n
  have hk : (Dispatcher.init n : Dispatcher C A).known = [] := by
    simp only [Dispatcher.known, hq]
    rfl
  refine ⟨by rw [hk]; exact List.nodup_nil, ?_, ?_⟩
  · intro p hp
    rw [hk] at hp
    cases hp
  · intro p hp
    rw [hq] at hp
    cases hp

/-- Every step of the dispatcher keeps the bookkeeping facts. -/
theorem Dispatcher.Sound.preserved (d d' : Dispatcher C A) (h : d.Sound)
    (hs : Dispatcher.Step d d') : d'.Sound := by
  obtain ⟨hN, hB, hS⟩ := h
  cases hs with
  | add grow locks T R m args ptr pool' hadd =>
    obtain ⟨hptr, hstore, k, q, q2, hk, hq2, hqueues⟩ :=
      ThreadPoolWithContextsAndArgs.addRunnable_ok grow locks _ args d.pool pool' ptr hadd
    have hidx : ptr.index = d.pool.m_runnables.size := by
      rw [hptr]
      exact StdVector.emplace_back_index grow _ _
    obtain ⟨-, hsize, helems⟩ := StdVector.emplace_back_spec grow d.pool.m_runnables
      (({ T := T, R := R, runnable := Runnable.create m } : AnyRunnable (C × A)), args)
    have hperm : (allQueued pool'.m_queues).Perm (ptr :: allQueued d.pool.m_queues) := by
      rw [hqueues]
      exact allQueued_set_perm _ k q q2 ptr hk hq2
    have hknown : (Dispatcher.known { d with pool := pool' }).Perm (ptr :: d.known) :=
      (hperm.append_right d.inHand).append_right d.launched
    have hrefs : (allQueued pool'.m_queues ++ d.inHand).Perm
        (ptr :: (allQueued d.pool.m_queues ++ d.inHand)) := hperm.append_right d.inHand
    refine ⟨?_, ?_, ?_⟩
    · rw [(hknown.map Address.index).nodup_iff]
      simp only [List.map_cons, List.nodup_cons]
      refine ⟨?_, hN⟩
      intro hmem
      obtain ⟨p, hp, hpi⟩ := List.mem_map.1 hmem
      have := hB p hp
      omega
    · intro p hp
      have hp' := hknown.mem_iff.1 hp
      show p.index < pool'.m_runnables.size
      rw [hstore, hsize]
      rcases List.mem_cons.1 hp' with hnew | hold
      · rw [hnew, hidx]
        omega
      · have := hB p hold
        omega
    · intro p hp entry hentry
      have hp' := hrefs.mem_iff.1 hp
      change pool'.m_runnables.elems[p.index]? = some entry at hentry
      rw [hstore, helems] at hentry
      rcases List.mem_cons.1 hp' with hnew | hold
      · rw [hnew, hidx] at hentry
        simp [StdVector.size] at hentry
        rw [← hentry]
        rfl
      · have hlt : p.index < d.pool.m_runnables.elems.length :=
          hB p (List.mem_append_left _ hold)
        rw [List.getElem?_append_left hlt] at hentry
        exact hS p hold entry hentry
  | pop k q q' tryToLock lockFree ptr hq hpop =>
    obtain ⟨hback, -⟩ := RunnableQueue.pop_some tryToLock lockFree q q' ptr hpop
    have hperm : (allQueued d.pool.m_queues).Perm
        (ptr :: allQueued (d.pool.m_queues.set k q')) :=
      allQueued_set_perm_pop _ k q q' ptr hq hback
    have hrefs : (allQueued (d.pool.m_queues.set k q') ++ ptr :: d.inHand).Perm
        (allQueued d.pool.m_queues ++ d.inHand) :=
      List.perm_middle.trans (hperm.append_right d.inHand).symm
    have hknown : (allQueued (d.pool.m_queues.set k q') ++ ptr :: d.inHand ++ d.launched).Perm
        d.known :=
      hrefs.append_right d.launched
    refine ⟨?_, ?_, ?_⟩
    · exact ((hknown.map Address.index).nodup_iff).2 hN
    · intro p hp
      exact hB p (hknown.mem_iff.1 hp)
    · intro p hp entry hentry
      exact hS p (hrefs.mem_iff.1 hp) entry hentry
  | launch ptr vars tStart tEnd entry entry' hHeld hEntry hlaunch =>
    have hI : d.inHand.Perm (ptr :: d.inHand.erase ptr) := List.perm_cons_erase hHeld
    have hrefs : (allQueued d.pool.m_queues ++ d.inHand).Perm
        (ptr :: (allQueued d.pool.m_queues ++ d.inHand.erase ptr)) :=
      (hI.append_left _).trans List.perm_middle
    have hold : d.known.Perm
        (ptr :: (allQueued d.pool.m_queues ++ d.inHand.erase ptr ++ d.launched)) :=
      hrefs.append_right d.launched
    have hknown : (allQueued d.pool.m_queues ++ d.inHand.erase ptr ++ ptr :: d.launched).Perm
        d.known :=
      List.perm_middle.trans hold.symm
    refine ⟨?_, ?_, ?_⟩
    · exact ((hknown.map Address.index).nodup_iff).2 hN
    · intro p hp
      have := hB p (hknown.mem_iff.1 hp)
      simpa [StdVector.size] using this
    · intro p hp entry0 hentry
      have hN' := ((hold.map Address.index).nodup_iff).1 hN
      simp only [List.map_cons, List.nodup_cons] at hN'
      have hne : ptr.index ≠ p.index := by
        intro heq
        exact hN'.1 (heq ▸ List.mem_map_of_mem Address.index (List.mem_append_left _ hp))
      have hp' : p ∈ allQueued d.pool.m_queues ++ d.inHand := by
        rcases List.mem_append.1 hp with h1 | h1
        · exact List.mem_append_left _ h1
        · exact List.mem_append_right _ (List.mem_of_mem_erase h1)
      change (d.pool.m_runnables.elems.set ptr.index entry')[p.index]? = some entry0 at hentry
      rw [List.getElem?_set_ne hne] at hentry
      exact hS p hp' entry0 hentry
  | launchDangling ptr hHeld hEntry =>
    have hsub : (allQueued d.pool.m_queues ++ d.inHand.erase ptr).Sublist
        (allQueued d.pool.m_queues ++ d.inHand) :=
      (List.Sublist.refl _).append (List.erase_sublist ptr d.inHand)
    have hknown : (allQueued d.pool.m_queues ++ d.inHand.erase ptr ++ d.launched).Sublist
        d.known :=
      hsub.append (List.Sublist.refl _)
    refine ⟨?_, ?_, ?_⟩
    · exact List.Nodup.sublist (hknown.map Address.index) hN
    · intro p hp
      exact hB p (hknown.subset hp)
    · intro p hp entry hentry
      exact hS p (hsub.subset hp) entry hentry

/-- Every state the dispatcher reaches satisfies the bookkeeping facts. -/
theorem Dispatcher.Reachable.sound (n : Nat) (d : Dispatcher C A)
    (h : Dispatcher.Reachable n d) : d.Sound := by
  induction h with
  | start => exact Dispatcher.Sound.atStart n
  | next d d' _ hs ih => exact Dispatcher.Sound.preserved d d' ih hs

/-- The references of the dispatcher are never duplicated: in every state it
reaches from a pool as constructed, each stored work item is referenced by at
most one queue entry over all queues and by none once it has been popped, no
work item is popped twice, no stored entry is launched twice, and a launch
through a held pointer that still designates a stored entry finds the runnable
not started, so that its entry assertion passes and it returns. -/
theorem Dispatcher.Reachable.references_unique (numberOfThreads : Nat) (d : Dispatcher C A)
    (hReach : Dispatcher.Reachable numberOfThreads d) :
    ((allQueued d.pool.m_queues).map Address.index).Nodup ∧
    (∀ p ∈ d.inHand ++ d.launched, ∀ p' ∈ allQueued d.pool.m_queues, p'.index ≠ p.index) ∧
    ((d.inHand ++ d.launched).map Address.index).Nodup ∧
    (d.launched.map Address.index).Nodup ∧
    (∀ p ∈ d.inHand, ∀ entry : RunnableAndArgs C A, d.pool.m_runnables.deref p = some entry →
      entry.1.runnable.isStarted = false ∧
      ∀ (vars : C) (tStart tEnd : Int), ∃ entry' : RunnableAndArgs C A,
        ThreadPoolWithContextsAndArgs.applyContext vars tStart tEnd entry = .ok entry') := by
  obtain ⟨hN, -, hS⟩ := Dispatcher.Reachable.sound numberOfThreads d hReach
  have h1 : (List.map Address.index (allQueued d.pool.m_queues)
      ++ List.map Address.index (d.inHand ++ d.launched)).Nodup := by
    simpa [Dispatcher.known, List.append_assoc] using hN
  obtain ⟨hQ, hIL, hdisj⟩ := List.nodup_append.1 h1
  have hL : (d.launched.map Address.index).Nodup := by
    rw [List.map_append] at hIL
    exact (List.nodup_append.1 hIL).2.1
  refine ⟨hQ, ?_, hIL, hL, ?_⟩
  · intro p hp p' hp' heq
    exact hdisj (List.mem_map_of_mem Address.index hp')
      (heq ▸ List.mem_map_of_mem Address.index hp)
  · intro p hp entry hentry
    have hget : d.pool.m_runnables.elems[p.index]? = some entry := by
      unfold StdVector.deref at hentry
      split at hentry
      · exact hentry
      · cases hentry
    have hns : entry.1.runnable.isStarted = false :=
      hS p (List.mem_append_right _ hp) entry hget
    refine ⟨hns, fun vars tStart tEnd => ?_⟩
    simp [ThreadPoolWithContextsAndArgs.applyContext,
      Runnable.launch_of_not_started tStart tEnd (vars, entry.2) entry.1.runnable hns]

/-- Claim C12, the code at the failing input: on a pool of one worker whose
vector doubles its capacity, two `addRunnable` calls followed by two pops
leave the worker holding the pointer to the first work item, which designates
no stored entry since the second `addRunnable` moved the storage. The launch
the worker performs through it is undefined behaviour: it does not act on the
stored runnable, which stays not started with no pointer to it left in any
queue or hand, and nothing guarantees the entry assertion of `launch`. -/
theorem launch_through_dangling_pointer :
    Dispatcher.Reachable 1 bothPoppedDispatcher ∧
    ({ buffer := 1, index := 0 } : Address) ∈ bothPoppedDispatcher.inHand ∧
    bothPoppedDispatcher.pool.m_runnables.deref { buffer := 1, index := 0 } = none ∧
    Dispatcher.Step bothPoppedDispatcher danglingLaunchDispatcher ∧
    Dispatcher.Reachable 1 danglingLaunchDispatcher ∧
    danglingLaunchDispatcher.undefinedBehaviour = true ∧
    danglingLaunchDispatcher.launched = [] ∧
    allQueued danglingLaunchDispatcher.pool.m_queues = [] ∧
    danglingLaunchDispatcher.inHand = [{ buffer := 2, index := 1 }] ∧
    danglingLaunchDispatcher.pool.m_runnables.elems.map
      (fun entry => entry.1.runnable.isStarted) = [false, false] := by
  have h1 : Dispatcher.Reachable 1 submittedDispatcher :=
    Dispatcher.Reachable.next (Dispatcher.init 1) submittedDispatcher
      Dispatcher.Reachable.start
      (Dispatcher.Step.add (Dispatcher.init 1) doubling allFree Unit Int sumModel 1
        { buffer := 1, index := 0 } submittedPool rfl)
  have h2 : Dispatcher.Reachable 1 twiceSubmittedDispatcher :=
    Dispatcher.Reachable.next submittedDispatcher twiceSubmittedDispatcher h1
      (Dispatcher.Step.add submittedDispatcher doubling allFree Unit Int sumModel 2
        { buffer := 2, index := 1 } twiceSubmittedPool rfl)
  have h3 := Dispatcher.Reachable.next twiceSubmittedDispatcher _ h2
    (Dispatcher.Step.pop twiceSubmittedDispatcher 0
      { m_runnables := [{ buffer := 1, index := 0 }, { buffer := 2, index := 1 }],
        m_done := false }
      { m_runnables := [{ buffer := 1, index := 0 }], m_done := false } true true
      { buffer := 2, index := 1 } rfl rfl)
  have h4 : Dispatcher.Reachable 1 bothPoppedDispatcher :=
    Dispatcher.Reachable.next _ bothPoppedDispatcher h3
      (Dispatcher.Step.pop _ 0
        { m_runnables := [{ buffer := 1, index := 0 }], m_done := false }
        { m_runnables := [], m_done := false } false true
        { buffer := 1, index := 0 } rfl rfl)
  have hstep : Dispatcher.Step bothPoppedDispatcher danglingLaunchDispatcher :=
    Dispatcher.Step.launchDangling bothPoppedDispatcher { buffer := 1, index := 0 }
      (List.mem_cons_self _ _) rfl
  exact ⟨h4, List.mem_cons_self _ _, rfl, hstep,
    Dispatcher.Reachable.next _ _ h4 hstep, rfl, rfl, rfl, rfl, rfl⟩

end Dispatch

end man
